import Mathlib

/-!
Verification of the FirmwareInstaller protocol engines against their
natural-language specification.  The Python sources are shallowly embedded:
pure fragments become Lean functions over `List Nat` byte sequences and
`List Char` text, stateful loops become explicit state passing or fuel
recursion, and every Python exception path is reflected in an `Except` or
`Option` result.
-/

/- ===================== Intel HEX decoder (src/avr_isp/intelHex.py) ===================== -/

/-- Reasons `readHex` raises its own `formatError` exception, one per
`raise formatError(...)` site in `intelHex.readHex`. -/
inductive HexFmt
  | startMarker
  | lengthMismatch
  | checksumMismatch
  | recType3
  | recType5
  deriving DecidableEq, Repr

/-- Outcomes of a failing `readHex` run: either the module's own
`formatError`, or a Python builtin exception escaping `readHex`
(`IndexError` from `line[0]` on an empty line, `ValueError` from
`int(s, 16)` on an empty or non-hexadecimal slice). -/
inductive HexErr
  | formatError (k : HexFmt)
  | indexError
  | valueError
  deriving DecidableEq, Repr

/-- Explicit bind on `Except`, used to write the embeddings in the same
shape as the Python control flow (first exception wins). -/
def exBind {e a b : Type} (x : Except e a) (f : a -> Except e b) : Except e b :=
  match x with
  | .error err => .error err
  | .ok v => f v

@[simp] lemma exBind_ok {e a b : Type} (v : a) (f : a -> Except e b) :
    exBind (.ok v) f = f v := rfl

@[simp] lemma exBind_error {e a b : Type} (err : e) (f : a -> Except e b) :
    exBind (Except.error err) f = .error err := rfl

/-- Python slice `l[a:b]` for `0 ≤ a ≤ b` (out-of-range bounds truncate). -/
def pySlice (l : List Char) (a b : Nat) : List Char :=
  (l.drop a).take (b - a)

/-- Python `str.strip()`: whitespace removed from both ends. -/
def pyStrip (l : List Char) : List Char :=
  ((l.dropWhile Char.isWhitespace).reverse.dropWhile Char.isWhitespace).reverse

/-- Characters accepted by Python `int(s, 16)` inside a plain hex numeral. -/
def isHexDigitChar (c : Char) : Bool :=
  c.isDigit || (('a' ≤ c && c ≤ 'f') || ('A' ≤ c && c ≤ 'F'))

/-- Value of one hex digit. -/
def hexDigitVal (c : Char) : Nat :=
  if c.isDigit then c.toNat - 48
  else if 'a' ≤ c && c ≤ 'f' then c.toNat - 87
  else c.toNat - 55

/-- Value of a string of hex digits (the pure part of `int(s, 16)`). -/
def hexVal (s : List Char) : Nat :=
  s.foldl (fun a c => 16 * a + hexDigitVal c) 0

/-- Python `int(s, 16)` on the slices `readHex` produces: an empty slice or a
slice holding a character that is not a hex digit raises `ValueError`.
(The Python builtin additionally accepts signs, surrounding whitespace and a
`0x` marker; no theorem below depends on those forms, and every concrete
input used is rejected by the builtin exactly when this model rejects it.) -/
def intHex (s : List Char) : Except HexErr Nat :=
  if s = [] then .error .valueError
  else if s.all isHexDigitChar then .ok (hexVal s)
  else .error .valueError

/-- Mutable state of the `readHex` loop: the byte image built so far and the
current extended-address offset. -/
structure HexState where
  data : List Nat
  extraAddr : Nat
  deriving DecidableEq, Repr

/-- Parse `count` two-character hex fields of `line` starting at character
position `start` and stepping by 2, failing at the first bad field exactly as
the Python `int(...)` calls inside the `readHex` loops do. -/
def hexSlices (line : List Char) (start : Nat) : Nat → Except HexErr (List Nat)
  | 0 => .ok []
  | n + 1 =>
    exBind (intHex (pySlice line start (start + 2))) fun v =>
    exBind (hexSlices line (start + 2) n) fun vs =>
    .ok (v :: vs)

/-- Loop body of `intelHex.readHex` for a single input line, as an exact
translation of the Python statement sequence (strip, start-marker check,
header fields, length check, checksum check, record-type dispatch).  The
checksum loop reads the fields `line[i*2+1 : i*2+3]` for `i < recLen + 5`,
i.e. the fields starting at 1 with stride 2; the data-record payload loop
reads the fields starting at 9. -/
def processLine (st : HexState) (rawLine : List Char) : Except HexErr HexState :=
  let line := pyStrip rawLine
  match line with
  | [] => .error .indexError
  | c0 :: _ =>
    if c0 ≠ ':' then .error (.formatError .startMarker) else
    exBind (intHex (pySlice line 1 3)) fun recLen =>
    exBind (intHex (pySlice line 3 7)) fun addr0 =>
    let addr := addr0 + st.extraAddr
    exBind (intHex (pySlice line 7 9)) fun recType =>
    if line.length ≠ recLen * 2 + 11 then .error (.formatError .lengthMismatch) else
    exBind (hexSlices line 1 (recLen + 5)) fun sums =>
    if (sums.foldl (· + ·) 0) &&& 0xFF ≠ 0 then .error (.formatError .checksumMismatch) else
    if recType = 0 then
      let padded := st.data ++ List.replicate (addr + recLen - st.data.length) 0
      exBind (hexSlices line 9 recLen) fun bytes =>
      .ok { st with data := (bytes.enum).foldl (fun d p => d.set (addr + p.1) p.2) padded }
    else if recType = 1 then
      .ok st
    else if recType = 2 then
      exBind (intHex (pySlice line 9 13)) fun v =>
      .ok { st with extraAddr := v * 16 }
    else if recType = 3 then .error (.formatError .recType3)
    else if recType = 4 then
      exBind (intHex (pySlice line 9 13)) fun v =>
      .ok { st with extraAddr := v <<< 16 }
    else if recType = 5 then .error (.formatError .recType5)
    else
      .ok st

/-- The `readHex` loop run from an arbitrary state over the remaining lines
(the first exception aborts the whole read, as in Python). -/
def readHexFrom (st : HexState) : List (List Char) → Except HexErr HexState
  | [] => .ok st
  | l :: ls => exBind (processLine st l) fun st2 => readHexFrom st2 ls

/-- `intelHex.readHex`: decode a hex file, given as its list of lines, into
the flat byte image. -/
def readHex (lines : List (List Char)) : Except HexErr (List Nat) :=
  exBind (readHexFrom ⟨[], 0⟩ lines) fun st => .ok st.data

/-- True when `readHex` returned an image or failed with the module's own
`formatError`; false when a builtin Python exception escaped. -/
def okOrFormatError : Except HexErr (List Nat) → Bool
  | .ok _ => true
  | .error (.formatError _) => true
  | .error _ => false

/-- Sum of the decoded bytes of a line that the `readHex` checksum loop adds
up: the `recLen + 5` two-character fields starting at position 1 (record
length, address, record type, payload and checksum fields). -/
def lineByteSum (line : List Char) (recLen : Nat) : Nat :=
  ((List.range (recLen + 5)).map (fun i => hexVal (pySlice line (1 + 2 * i) (1 + 2 * i + 2)))).foldl (· + ·) 0

deriving instance DecidableEq for Except

example : readHex [(":0100000000FF").data] = .ok [0] := by decide
example : readHex [(":00000001FF").data] = .ok [] := by decide
example : readHex [[]] = .error .indexError := by decide
example : readHex [(":00000001FE").data] = .error (.formatError .checksumMismatch) := by decide

/- ----- helper lemmas about the HEX embedding ----- -/

lemma intHex_ok (s : List Char) (hne : s ≠ []) (hhex : ∀ c ∈ s, isHexDigitChar c = true) :
    intHex s = .ok (hexVal s) := by
  simp only [intHex, if_neg hne, List.all_eq_true]
  rw [if_pos hhex]

lemma pySlice_congr (l : List Char) {a b a2 b2 : Nat} (ha : a = a2) (hb : b = b2) :
    pySlice l a b = pySlice l a2 b2 := by
  rw [ha, hb]

lemma pySlice_ne_nil (l : List Char) (a b : Nat) (ha : a < l.length) (hb : a < b) :
    pySlice l a b ≠ [] := by
  simp only [pySlice, ne_eq, List.take_eq_nil_iff, not_or]
  constructor
  · omega
  · simp only [List.drop_eq_nil_iff]
    omega

lemma pySlice_mem_tail (c0 : Char) (t : List Char) (a b : Nat) (ha : 1 ≤ a) :
    ∀ c ∈ pySlice (c0 :: t) a b, c ∈ t := by
  intro c hc
  have h1 : c ∈ (c0 :: t).drop a := List.take_subset _ _ hc
  obtain ⟨a1, rfl⟩ : ∃ a1, a = a1 + 1 := ⟨a - 1, by omega⟩
  exact List.drop_subset a1 t h1

lemma hexSlices_ok (line : List Char) :
    ∀ (count start : Nat), 1 ≤ start → start + 2 * count ≤ line.length + 1 →
      (∀ c ∈ line.tail, isHexDigitChar c = true) →
      hexSlices line start count =
        .ok ((List.range count).map (fun i => hexVal (pySlice line (start + 2 * i) (start + 2 * i + 2)))) := by
  intro count
  induction count with
  | zero => intro start _ _ _; simp [hexSlices]
  | succ n ih =>
    intro start hs hlen hhex
    obtain ⟨c0, t, rfl⟩ : ∃ c0 t, line = c0 :: t := by
      cases line with
      | nil => simp only [List.length_nil] at hlen; omega
      | cons c0 t => exact ⟨c0, t, rfl⟩
    have hstart : start < (c0 :: t).length := by
      simp only [List.length_cons] at hlen ⊢
      omega
    have hne : pySlice (c0 :: t) start (start + 2) ≠ [] :=
      pySlice_ne_nil _ _ _ hstart (by omega)
    have hmem : ∀ c ∈ pySlice (c0 :: t) start (start + 2), isHexDigitChar c = true :=
      fun c hc => hhex c (pySlice_mem_tail c0 t start (start + 2) hs c hc)
    have hlen2 : start + 2 + 2 * n ≤ (c0 :: t).length + 1 := by
      simp only [List.length_cons] at hlen ⊢
      omega
    rw [hexSlices, intHex_ok _ hne hmem, exBind_ok, ih (start + 2) (by omega) hlen2 hhex, exBind_ok]
    simp only [List.range_succ_eq_map, List.map_cons, List.map_map, Except.ok.injEq]
    refine congrArg₂ List.cons (congrArg hexVal (pySlice_congr _ (by omega) (by omega))) ?_
    refine List.map_congr_left fun i _ => ?_
    simp only [Function.comp_apply]
    exact congrArg hexVal (pySlice_congr _ (by omega) (by omega))

lemma processLine_unfold_ok (st : HexState) (l : List Char) (t : List Char)
    (hstrip : pyStrip l = ':' :: t)
    (hhex : ∀ c ∈ t, isHexDigitChar c = true)
    (h8 : 8 ≤ (':' :: t).length) :
    processLine st l =
      (let line := ':' :: t
       let recLen := hexVal (pySlice line 1 3)
       let addr := hexVal (pySlice line 3 7) + st.extraAddr
       let recType := hexVal (pySlice line 7 9)
       if line.length ≠ recLen * 2 + 11 then .error (.formatError .lengthMismatch) else
       exBind (hexSlices line 1 (recLen + 5)) fun sums =>
       if (sums.foldl (· + ·) 0) &&& 0xFF ≠ 0 then .error (.formatError .checksumMismatch) else
       if recType = 0 then
         let padded := st.data ++ List.replicate (addr + recLen - st.data.length) 0
         exBind (hexSlices line 9 recLen) fun bytes =>
         .ok { st with data := (bytes.enum).foldl (fun d p => d.set (addr + p.1) p.2) padded }
       else if recType = 1 then .ok st
       else if recType = 2 then
         exBind (intHex (pySlice line 9 13)) fun v =>
         .ok { st with extraAddr := v * 16 }
       else if recType = 3 then .error (.formatError .recType3)
       else if recType = 4 then
         exBind (intHex (pySlice line 9 13)) fun v =>
         .ok { st with extraAddr := v <<< 16 }
       else if recType = 5 then .error (.formatError .recType5)
       else .ok st) := by
  have hmem : ∀ a b : Nat, 1 ≤ a → ∀ c ∈ pySlice (':' :: t) a b, isHexDigitChar c = true :=
    fun a b ha c hc => hhex c (pySlice_mem_tail ':' t a b ha c hc)
  have hne : ∀ a b : Nat, a < (':' :: t).length → a < b → pySlice (':' :: t) a b ≠ [] :=
    fun a b => pySlice_ne_nil (':' :: t) a b
  have hlen : (8 : Nat) ≤ (':' :: t).length := h8
  rw [processLine, hstrip]
  simp only [reduceCtorEq, reduceIte, ne_eq, not_true_eq_false, if_false, exBind_ok,
    intHex_ok _ (hne 1 3 (by omega) (by omega)) (hmem 1 3 (by omega)),
    intHex_ok _ (hne 3 7 (by omega) (by omega)) (hmem 3 7 (by omega)),
    intHex_ok _ (hne 7 9 (by omega) (by omega)) (hmem 7 9 (by omega))]

lemma processLineGood (st : HexState) (l : List Char)
    (h8 : 8 ≤ (pyStrip l).length)
    (hhex : ∀ c ∈ (pyStrip l).tail, isHexDigitChar c = true) :
    (∃ st2, processLine st l = .ok st2) ∨ ∃ k, processLine st l = .error (.formatError k) := by
  obtain ⟨c0, t, hstrip⟩ : ∃ c0 t, pyStrip l = c0 :: t := by
    cases hs : pyStrip l with
    | nil => rw [hs] at h8; simp at h8
    | cons c0 t => exact ⟨c0, t, rfl⟩
  rw [hstrip] at h8 hhex
  simp only [List.tail_cons] at hhex
  by_cases hc0 : c0 = ':'
  · subst hc0
    rw [processLine_unfold_ok st l t hstrip hhex h8]
    simp only []
    set line := ':' :: t with hline
    set recLen := hexVal (pySlice line 1 3) with hrec
    by_cases hL : line.length = recLen * 2 + 11
    · rw [if_neg (by omega)]
      have hsums := hexSlices_ok line (recLen + 5) 1 (by omega) (by omega) (by simpa using hhex)
      rw [hsums, exBind_ok]
      by_cases hck : ((((List.range (recLen + 5)).map
          (fun i => hexVal (pySlice line (1 + 2 * i) (1 + 2 * i + 2)))).foldl (· + ·) 0) &&& 0xFF) ≠ 0
      · rw [if_pos hck]
        exact Or.inr ⟨.checksumMismatch, rfl⟩
      · rw [if_neg hck]
        set recType := hexVal (pySlice line 7 9) with htype
        by_cases h0 : recType = 0
        · rw [if_pos h0]
          have hbytes := hexSlices_ok line recLen 9 (by omega) (by omega) (by simpa using hhex)
          rw [hbytes, exBind_ok]
          exact Or.inl ⟨_, rfl⟩
        · rw [if_neg h0]
          by_cases h1 : recType = 1
          · rw [if_pos h1]; exact Or.inl ⟨_, rfl⟩
          · rw [if_neg h1]
            by_cases h2 : recType = 2
            · rw [if_pos h2]
              rw [intHex_ok _ (pySlice_ne_nil line 9 13 (by omega) (by omega))
                (fun c hc => hhex c (pySlice_mem_tail ':' t 9 13 (by omega) c hc)), exBind_ok]
              exact Or.inl ⟨_, rfl⟩
            · rw [if_neg h2]
              by_cases h3 : recType = 3
              · rw [if_pos h3]; exact Or.inr ⟨.recType3, rfl⟩
              · rw [if_neg h3]
                by_cases h4 : recType = 4
                · rw [if_pos h4]
                  rw [intHex_ok _ (pySlice_ne_nil line 9 13 (by omega) (by omega))
                    (fun c hc => hhex c (pySlice_mem_tail ':' t 9 13 (by omega) c hc)), exBind_ok]
                  exact Or.inl ⟨_, rfl⟩
                · rw [if_neg h4]
                  by_cases h5 : recType = 5
                  · rw [if_pos h5]; exact Or.inr ⟨.recType5, rfl⟩
                  · rw [if_neg h5]; exact Or.inl ⟨_, rfl⟩
    · rw [if_pos (by omega)]
      exact Or.inr ⟨.lengthMismatch, rfl⟩
  · right
    refine ⟨.startMarker, ?_⟩
    rw [processLine, hstrip]
    simp only [ne_eq, hc0, not_false_eq_true, if_true]

/- ----- claim theorems about the HEX decoder ----- -/

/-- C4 (counterexample): `readHex` does not stop at an End-Of-File record.
After a valid EOF record `":00000001FF"`, a following corrupted line still
fails the whole read, and a following data record still modifies the
returned image (the claim requires `.ok []` in both runs). -/
theorem C4_counterexample :
    readHex [(":00000001FF").data, (":00000001FE").data] =
        .error (.formatError .checksumMismatch) ∧
    readHex [(":00000001FF").data, (":0100000000FF").data] = .ok [0] := by
  decide

/-- C4 (amended): a type-1 (EOF) record is processed as a no-op — the state
is returned unchanged and the scan simply continues with the remaining
lines, which are still parsed and can still modify the image or raise. -/
theorem C4_amended :
    ∀ (st : HexState) (rest : List (List Char)),
      processLine st (":00000001FF").data = .ok st ∧
      readHexFrom st ((":00000001FF").data :: rest) = readHexFrom st rest := by
  intro st rest
  constructor
  · rfl
  · rfl

/-- C7: a decodable HEX line (start marker, hex digits, exact length) whose
mod-256 sum of all decoded bytes — record length, address, record type,
payload and checksum fields — is non-zero makes the `readHex` loop body
raise `formatError` (checksum mismatch) from any decoder state, so a
corrupted checksum never contributes a silently wrong byte to the image. -/
theorem C7_checksum_mismatch_raises (st : HexState) (l t : List Char)
    (hstrip : pyStrip l = ':' :: t)
    (hhex : ∀ c ∈ t, isHexDigitChar c = true)
    (hlen : (':' :: t).length = hexVal (pySlice (':' :: t) 1 3) * 2 + 11)
    (hsum : lineByteSum (':' :: t) (hexVal (pySlice (':' :: t) 1 3)) &&& 0xFF ≠ 0) :
    processLine st l = .error (.formatError .checksumMismatch) := by
  have h8 : 8 ≤ (':' :: t).length := by rw [hlen]; omega
  rw [processLine_unfold_ok st l t hstrip hhex h8]
  simp only []
  rw [if_neg (not_ne_iff.mpr hlen)]
  rw [hexSlices_ok (':' :: t) (hexVal (pySlice (':' :: t) 1 3) + 5) 1 (by omega)
    (by rw [hlen]; omega) hhex, exBind_ok]
  rw [if_pos (by simpa [lineByteSum] using hsum)]

/-- C7 (witness): the corrupted line `":0100000000FE"` (true checksum `0xFF`)
is rejected with the checksum-mismatch `formatError`. -/
theorem C7_witness :
    processLine ⟨[], 0⟩ (":0100000000FE").data = .error (.formatError .checksumMismatch) :=
  C7_checksum_mismatch_raises ⟨[], 0⟩ (":0100000000FE").data ("0100000000FE").data
    (by decide) (by decide) (by decide) (by decide)

/-- C9 (counterexample): exceptions other than `formatError` escape
`readHex` on malformed input — an empty line raises `IndexError`, and a line
shorter than a full header raises `ValueError` from `int`. -/
theorem C9_counterexample :
    okOrFormatError (readHex [[]]) = false ∧
    okOrFormatError (readHex [(":0").data]) = false ∧
    readHex [[]] = .error .indexError ∧
    readHex [(":0").data] = .error .valueError := by
  decide

/-- C9 (amended): on inputs whose every stripped line has at least 8
characters, all hex digits after the first, `readHex` either returns an
image or fails with the module's own `formatError`; empty lines raise
`IndexError` and short or non-hexadecimal fields raise `ValueError` instead. -/
theorem C9_amended (lines : List (List Char))
    (h : ∀ l ∈ lines, 8 ≤ (pyStrip l).length ∧ ∀ c ∈ (pyStrip l).tail, isHexDigitChar c = true) :
    okOrFormatError (readHex lines) = true := by
  suffices haux : ∀ (ls : List (List Char)) (st : HexState),
      (∀ l ∈ ls, 8 ≤ (pyStrip l).length ∧ ∀ c ∈ (pyStrip l).tail, isHexDigitChar c = true) →
      (∃ st2, readHexFrom st ls = .ok st2) ∨ (∃ k, readHexFrom st ls = .error (.formatError k)) by
    rcases haux lines ⟨[], 0⟩ h with ⟨st2, h2⟩ | ⟨k, h2⟩ <;>
      simp [readHex, h2, okOrFormatError]
  intro ls
  induction ls with
  | nil => intro st _; exact Or.inl ⟨st, rfl⟩
  | cons l ls ih =>
    intro st hall
    have hl := hall l (by simp)
    have hrest : ∀ l2 ∈ ls, 8 ≤ (pyStrip l2).length ∧
        ∀ c ∈ (pyStrip l2).tail, isHexDigitChar c = true :=
      fun l2 hm => hall l2 (by simp [hm])
    rcases processLineGood st l hl.1 hl.2 with ⟨st2, h2⟩ | ⟨k, h2⟩
    · rw [readHexFrom, h2, exBind_ok]
      exact ih st2 hrest
    · rw [readHexFrom, h2]
      exact Or.inr ⟨k, rfl⟩

/-- C9 (witness): a well-formed single-record file satisfies the hypothesis
of the amended claim, and the run indeed ends in an image or `formatError`. -/
theorem C9_witness :
    okOrFormatError (readHex [(":0100000000FF").data]) = true :=
  C9_amended [(":0100000000FF").data] (by decide)

/- ===================== Chip catalog (src/avr_isp/chipDB.py) ===================== -/

/-- One entry of the AVR chip database: signature and flash geometry. -/
structure AvrChip where
  signature : List Nat
  pageSize : Nat
  pageCount : Nat
  deriving DecidableEq, Repr

/-- The `avrChipDB` table, in source order. -/
def avrChipDB : List (String × AvrChip) :=
  [("ATMega1280", ⟨[0x1E, 0x97, 0x03], 128, 512⟩),
   ("ATMega2560", ⟨[0x1E, 0x98, 0x01], 128, 1024⟩)]

/-- `chipDB.getChipFromDB`: first chip whose signature equals `sig`
(`none` models the Python `False` result). -/
def getChipFromDB (sig : List Nat) : Option AvrChip :=
  (avrChipDB.map Prod.snd).find? (fun chip => chip.signature == sig)

/-- The ATMega2560 profile from the table. -/
def atmega2560 : AvrChip := ⟨[0x1E, 0x98, 0x01], 128, 1024⟩

/- ===================== STK500v2 engine (src/avr_isp/stk500v2.py) ===================== -/

/-- Observable step of the AVR engine: one `sendMessage` payload, or one
`progressCallback.emit(cur, tot)`. -/
inductive AvrAction
  | send (msg : List Nat)
  | progress (cur tot : Nat)
  deriving DecidableEq, Repr

/-- Trace of `Stk500v2.writeFlash`: the load-address command (extended form
when the flash is larger than 64K), then per page the `0x13` program-page
command carrying `flashData[i*pageSize : i*pageSize + pageSize]` followed by
the progress event `(i+1, loadCount*2)`. -/
def writeFlashTrace (chip : AvrChip) (flashData : List Nat) : List AvrAction :=
  let pageSize := chip.pageSize * 2
  let flashSize := pageSize * chip.pageCount
  let loadCount := (flashData.length + pageSize - 1) / pageSize
  (if flashSize > 0xFFFF then AvrAction.send [0x06, 0x80, 0x00, 0x00, 0x00]
   else AvrAction.send [0x06, 0x00, 0x00, 0x00, 0x00]) ::
  ((List.range loadCount).map (fun i =>
    [AvrAction.send ([0x13, pageSize >>> 8, pageSize &&& 0xFF,
        0xc1, 0x0a, 0x40, 0x4c, 0x20, 0x00, 0x00]
      ++ ((flashData.drop (i * pageSize)).take pageSize)),
     AvrAction.progress (i + 1) (loadCount * 2)])).flatten

/-- The page payloads `writeFlash` sends, in order: the device receives them
at consecutive flash addresses starting at 0 (the load address is set to 0
and auto-increments), so their concatenation is the device's flash content. -/
def pagePayloads (chip : AvrChip) (flashData : List Nat) : List (List Nat) :=
  let pageSize := chip.pageSize * 2
  let loadCount := (flashData.length + pageSize - 1) / pageSize
  (List.range loadCount).map (fun i => (flashData.drop (i * pageSize)).take pageSize)

/-- Result of `Stk500v2.verifyFlash` against a device readback `mem`: the
loop reads 256-byte blocks and reports the first offset (in scan order)
where the image byte differs from the readback; `none` means no
`IspError("Verify error ...")` is raised. -/
def verifyBlocks (flashData : List Nat) (mem : Nat → Nat) : Option Nat :=
  let loadCount := (flashData.length + 0xFF) / 0x100
  (List.range loadCount).findSome? (fun i =>
    (List.range 0x100).findSome? (fun j =>
      if i * 0x100 + j < flashData.length ∧ flashData.getD (i * 0x100 + j) 0 ≠ mem (i * 0x100 + j)
      then some (i * 0x100 + j) else none))

/-- Recognizes the `0x13` program-page command among the engine's actions. -/
def isPageWrite : AvrAction → Bool
  | .send (0x13 :: _) => true
  | _ => false

/-- Number of program-page commands in a trace. -/
def pageWriteCount (tr : List AvrAction) : Nat :=
  tr.countP (fun a => isPageWrite a)

/- ----- helper lemmas for the write/verify model ----- -/

lemma chunk_count_step (p m : Nat) (hp : 0 < p) (hm : 1 ≤ m) :
    (m + p - 1) / p = (m - p + p - 1) / p + 1 := by
  have h1 : m + p - 1 = (m - 1) + p := by omega
  rw [h1, Nat.add_div_right _ hp]
  rcases le_or_lt m p with hle | hlt
  · have h2 : m - p = 0 := by omega
    rw [h2]
    rw [Nat.div_eq_of_lt (by omega), Nat.div_eq_of_lt (by omega)]
  · congr 2
    omega

lemma chunks_flatten (p : Nat) (hp : 0 < p) :
    ∀ l : List Nat,
      ((List.range ((l.length + p - 1) / p)).map (fun i => (l.drop (i * p)).take p)).flatten = l := by
  suffices haux : ∀ (n : Nat) (l : List Nat), l.length ≤ n →
      ((List.range ((l.length + p - 1) / p)).map (fun i => (l.drop (i * p)).take p)).flatten = l by
    exact fun l => haux l.length l le_rfl
  intro n
  induction n with
  | zero =>
    intro l hl
    have hnil : l = [] := List.eq_nil_of_length_eq_zero (by omega)
    subst hnil
    rw [show (([] : List Nat).length + p - 1) / p = 0 from Nat.div_eq_of_lt (by simp; omega)]
    simp
  | succ n ih =>
    intro l hl
    cases hl0 : l with
    | nil =>
      rw [show (([] : List Nat).length + p - 1) / p = 0 from Nat.div_eq_of_lt (by simp; omega)]
      simp
    | cons a t =>
      have hm : 1 ≤ l.length := by rw [hl0]; simp
      rw [← hl0]
      have hdrop : (l.drop p).length = l.length - p := by simp
      rw [show (l.length + p - 1) / p = ((l.drop p).length + p - 1) / p + 1 by
        rw [hdrop]; exact chunk_count_step p l.length hp hm]
      rw [List.range_succ_eq_map, List.map_cons, List.map_map]
      have hshift : ∀ i : Nat,
          ((fun i => (l.drop (i * p)).take p) ∘ Nat.succ) i =
            (fun i => ((l.drop p).drop (i * p)).take p) i := by
        intro i
        simp only [Function.comp_apply, List.drop_drop]
        congr 2
        rw [Nat.succ_mul]
        ring
      rw [List.map_congr_left (fun i _ => hshift i)]
      have hrec := ih (l.drop p) (by rw [hdrop]; omega)
      simp only [List.flatten_cons, hrec, Nat.zero_mul, List.drop_zero]
      exact List.take_append_drop p l

lemma pageWriteCount_blocks (f : Nat → List AvrAction)
    (hf : ∀ i, (f i).countP (fun a => isPageWrite a) = 1) :
    ∀ n, (((List.range n).map f).flatten).countP (fun a => isPageWrite a) = n := by
  intro n
  induction n with
  | zero => simp
  | succ k ih =>
    rw [List.range_succ, List.map_append, List.flatten_append, List.countP_append, ih]
    simp [hf k]

lemma writeFlash_pageWriteCount (chip : AvrChip) (flashData : List Nat) :
    pageWriteCount (writeFlashTrace chip flashData) =
      (flashData.length + chip.pageSize * 2 - 1) / (chip.pageSize * 2) := by
  unfold pageWriteCount writeFlashTrace
  simp only []
  rw [List.countP_cons]
  have hhead : (isPageWrite (if chip.pageSize * 2 * chip.pageCount > 0xFFFF
      then AvrAction.send [0x06, 0x80, 0x00, 0x00, 0x00]
      else AvrAction.send [0x06, 0x00, 0x00, 0x00, 0x00])) = false := by
    split <;> rfl
  rw [pageWriteCount_blocks _ (fun i => by rw [List.countP_cons, List.countP_cons]; rfl)]
  simp [hhead]

lemma verifyBlocks_none (l : List Nat) (mem : Nat → Nat)
    (h : ∀ a, a < l.length → mem a = l.getD a 0) :
    verifyBlocks l mem = none := by
  unfold verifyBlocks
  rw [List.findSome?_eq_none_iff]
  intro i _
  rw [List.findSome?_eq_none_iff]
  intro j _
  rw [if_neg]
  rintro ⟨hlt, hne⟩
  exact hne (h (i * 0x100 + j) hlt).symm

lemma writeFlash_progress_mem (chip : AvrChip) (flashData : List Nat) (i : Nat)
    (hi : i < (flashData.length + chip.pageSize * 2 - 1) / (chip.pageSize * 2)) :
    AvrAction.progress (i + 1) (((flashData.length + chip.pageSize * 2 - 1) / (chip.pageSize * 2)) * 2)
      ∈ writeFlashTrace chip flashData := by
  unfold writeFlashTrace
  simp only []
  apply List.mem_cons_of_mem
  rw [List.mem_flatten]
  exact ⟨_, List.mem_map_of_mem _ (List.mem_range.mpr hi), by simp⟩

/- ----- claim theorems about the AVR write/verify scenario ----- -/

/-- C1 (counterexample): for the 256KB all-zero image on the ATMega2560
(pageSize 128 words = 256 bytes per page command), `writeFlash` issues 1024
page-program commands, not 2048. -/
theorem C1_counterexample :
    pageWriteCount (writeFlashTrace atmega2560 (List.replicate 262144 0)) = 1024 ∧
    pageWriteCount (writeFlashTrace atmega2560 (List.replicate 262144 0)) ≠ 2048 := by
  have h : pageWriteCount (writeFlashTrace atmega2560 (List.replicate 262144 0)) = 1024 := by
    rw [writeFlash_pageWriteCount]
    simp only [List.length_replicate]
    norm_num [atmega2560]
  exact ⟨h, by rw [h]; norm_num⟩

lemma pagePayloads_flatten_zero_image :
    (pagePayloads atmega2560 (List.replicate 262144 0)).flatten = List.replicate 262144 0 := by
  unfold pagePayloads
  exact chunks_flatten (atmega2560.pageSize * 2) (by norm_num [atmega2560]) _

/-- C1 (amended): signature `[0x1E, 0x98, 0x01]` resolves the ATMega2560
profile (pageSize 128, pageCount 1024); writing the 256KB all-zero image
performs exactly 1024 page-program commands — the figure 2048 is the
progress counter's combined total of write plus verify steps, as the final
write-phase progress event `(1024, 2048)` shows — and verifying the image
against the device memory that holds the concatenated page payloads raises
no verify error. -/
theorem C1_amended :
    getChipFromDB [0x1E, 0x98, 0x01] = some atmega2560 ∧
    atmega2560.pageSize = 128 ∧ atmega2560.pageCount = 1024 ∧
    pageWriteCount (writeFlashTrace atmega2560 (List.replicate 262144 0)) = 1024 ∧
    AvrAction.progress 1024 2048 ∈ writeFlashTrace atmega2560 (List.replicate 262144 0) ∧
    verifyBlocks (List.replicate 262144 0)
      (fun a => (pagePayloads atmega2560 (List.replicate 262144 0)).flatten.getD a 0xFF) = none := by
  refine ⟨by decide, rfl, rfl, ?_, ?_, ?_⟩
  · rw [writeFlash_pageWriteCount]
    simp only [List.length_replicate]
    norm_num [atmega2560]
  · have hm := writeFlash_progress_mem atmega2560 (List.replicate 262144 0) 1023
      (by simp only [List.length_replicate]; norm_num [atmega2560])
    have h2 : (((List.replicate 262144 (0:Nat)).length + atmega2560.pageSize * 2 - 1) /
        (atmega2560.pageSize * 2)) * 2 = 2048 := by
      simp only [List.length_replicate]
      norm_num [atmega2560]
    rw [h2, show (1023:Nat) + 1 = 1024 from rfl] at hm
    exact hm
  · apply verifyBlocks_none
    intro a ha
    rw [pagePayloads_flatten_zero_image]
    simp only [List.length_replicate] at ha
    rw [List.getD_eq_getElem?_getD, List.getD_eq_getElem?_getD]
    simp only [List.getElem?_replicate, if_pos ha, Option.getD_some]

/- ----- STK500v2 receive state machine (Stk500v2.recvMessage) ----- -/

/-- States of the `recvMessage` byte parser. -/
inductive RxTag
  | start
  | getSeq
  | size1
  | size2
  | token
  | dataSt
  | cksum
  deriving DecidableEq, Repr

/-- Mutable locals of the `recvMessage` loop (`state`, `checksum`,
`msgSize`, `data`). -/
structure RxState where
  tag : RxTag
  checksum : Nat
  msgSize : Nat
  data : List Nat
  deriving DecidableEq, Repr

/-- One-byte-at-a-time run of `recvMessage` over an incoming byte stream.
`checksum ^= b` happens before the state dispatch, as in the Python loop;
an exhausted stream models the 20ms read timeout (`none`). -/
def recvRun : RxState → List Nat → Option (List Nat)
  | _, [] => none
  | st, b :: rest =>
    let c := st.checksum ^^^ b
    match st.tag with
    | .start =>
      if b = 0x1B then recvRun ⟨.getSeq, 0x1B, st.msgSize, st.data⟩ rest
      else recvRun ⟨.start, c, st.msgSize, st.data⟩ rest
    | .getSeq => recvRun ⟨.size1, c, st.msgSize, st.data⟩ rest
    | .size1 => recvRun ⟨.size2, c, b <<< 8, st.data⟩ rest
    | .size2 => recvRun ⟨.token, c, st.msgSize ||| b, st.data⟩ rest
    | .token =>
      if b ≠ 0x0E then recvRun ⟨.start, c, st.msgSize, st.data⟩ rest
      else recvRun ⟨.dataSt, c, st.msgSize, []⟩ rest
    | .dataSt =>
      let d := st.data ++ [b]
      if d.length = st.msgSize then recvRun ⟨.cksum, c, st.msgSize, d⟩ rest
      else recvRun ⟨.dataSt, c, st.msgSize, d⟩ rest
    | .cksum =>
      if c ≠ 0 then recvRun ⟨.start, c, st.msgSize, st.data⟩ rest
      else some st.data

/-- `Stk500v2.recvMessage` on a byte stream: run the parser from the fresh
`state = Start, checksum = 0` loop entry. -/
def recvMessage (stream : List Nat) : Option (List Nat) :=
  recvRun ⟨.start, 0, 0, []⟩ stream

/-- A well-formed STK500v2 packet: start byte, sequence byte, two size
bytes, token `0x0E`, payload, and the XOR checksum of everything before it. -/
def packetBytes (seq hi lo : Nat) (payload : List Nat) : List Nat :=
  [0x1B, seq, hi, lo, 0x0E] ++ payload ++
    [([0x1B, seq, hi, lo, 0x0E] ++ payload).foldl (· ^^^ ·) 0]

example : packetBytes 0x01 0x00 0x01 [0x00] = [0x1B, 0x01, 0x00, 0x01, 0x0E, 0x00, 0x15] := by decide
example : recvMessage (packetBytes 0x01 0x00 0x01 [0x00]) = some [0x00] := by decide
example : recvMessage (0x1B :: packetBytes 0x01 0x00 0x01 [0x00]) = none := by decide

lemma recvRun_pre_data_state (l : List Nat) :
    (∀ c1 c2 m1 m2 d1 d2, recvRun ⟨.start, c1, m1, d1⟩ l = recvRun ⟨.start, c2, m2, d2⟩ l) ∧
    (∀ c m1 m2 d1 d2, recvRun ⟨.getSeq, c, m1, d1⟩ l = recvRun ⟨.getSeq, c, m2, d2⟩ l) ∧
    (∀ c m1 m2 d1 d2, recvRun ⟨.size1, c, m1, d1⟩ l = recvRun ⟨.size1, c, m2, d2⟩ l) ∧
    (∀ c m d1 d2, recvRun ⟨.size2, c, m, d1⟩ l = recvRun ⟨.size2, c, m, d2⟩ l) ∧
    (∀ c m d1 d2, recvRun ⟨.token, c, m, d1⟩ l = recvRun ⟨.token, c, m, d2⟩ l) := by
  induction l with
  | nil => refine ⟨fun _ _ _ _ _ _ => rfl, fun _ _ _ _ _ => rfl, fun _ _ _ _ _ => rfl,
      fun _ _ _ _ => rfl, fun _ _ _ _ => rfl⟩
  | cons b rest ih =>
    obtain ⟨ihs, ihq, ih1, ih2, iht⟩ := ih
    refine ⟨?_, ?_, ?_, ?_, ?_⟩
    · intro c1 c2 m1 m2 d1 d2
      by_cases hb : b = 0x1B
      · simp only [recvRun, if_pos hb]
        exact ihq 0x1B m1 m2 d1 d2
      · simp only [recvRun, if_neg hb]
        exact ihs (c1 ^^^ b) (c2 ^^^ b) m1 m2 d1 d2
    · intro c m1 m2 d1 d2
      simp only [recvRun]
      exact ih1 (c ^^^ b) m1 m2 d1 d2
    · intro c m1 m2 d1 d2
      simp only [recvRun]
      exact ih2 (c ^^^ b) (b <<< 8) d1 d2
    · intro c m d1 d2
      simp only [recvRun]
      exact iht (c ^^^ b) (m ||| b) d1 d2
    · intro c m d1 d2
      by_cases hb : b ≠ 0x0E
      · simp only [recvRun, if_pos hb]
        exact ihs (c ^^^ b) (c ^^^ b) m m d1 d2
      · simp only [recvRun, if_neg hb]

lemma recvRun_skip_garbage (g : List Nat) :
    ∀ (rest : List Nat) (c m : Nat) (d : List Nat), (∀ b ∈ g, b ≠ 0x1B) →
      recvRun ⟨.start, c, m, d⟩ (g ++ rest) = recvRun ⟨.start, 0, 0, []⟩ rest := by
  induction g with
  | nil => intro rest c m d _; exact (recvRun_pre_data_state rest).1 c 0 m 0 d []
  | cons b bs ih =>
    intro rest c m d hg
    have hb : b ≠ 0x1B := hg b (by simp)
    simp only [List.cons_append, recvRun, if_neg hb]
    exact ih rest (c ^^^ b) m d (fun x hx => hg x (by simp [hx]))

lemma recvRun_data_phase (p : List Nat) :
    ∀ (rest : List Nat) (c m : Nat) (acc : List Nat),
      acc.length + p.length = m → p ≠ [] →
      recvRun ⟨.dataSt, c, m, acc⟩ (p ++ rest) =
        recvRun ⟨.cksum, p.foldl (· ^^^ ·) c, m, acc ++ p⟩ rest := by
  induction p with
  | nil => intro _ _ _ _ _ hne; exact absurd rfl hne
  | cons x xs ih =>
    intro rest c m acc hlen _
    cases hxs : xs with
    | nil =>
      subst hxs
      have hl : (acc ++ [x]).length = m := by simp at hlen ⊢; omega
      simp only [List.cons_append, List.nil_append, recvRun, if_pos hl, List.foldl_cons,
        List.foldl_nil]
      rfl
    | cons y ys =>
      have hne2 : ¬((acc ++ [x]).length = m) := by
        subst hxs
        simp only [List.length_append, List.length_cons, List.length_nil] at hlen ⊢
        omega
      rw [← hxs]
      simp only [List.cons_append, recvRun, if_neg hne2, List.append_eq]
      rw [ih rest (c ^^^ x) m (acc ++ [x])
        (by subst hxs; simp at hlen ⊢; omega)
        (by subst hxs; simp)]
      simp only [List.foldl_cons, List.append_assoc, List.singleton_append]

lemma recvRun_start_1B (c m : Nat) (d : List Nat) (rest : List Nat) :
    recvRun ⟨.start, c, m, d⟩ (0x1B :: rest) = recvRun ⟨.getSeq, 0x1B, m, d⟩ rest := by
  simp [recvRun]

lemma recvRun_getSeq_step (b c m : Nat) (d : List Nat) (rest : List Nat) :
    recvRun ⟨.getSeq, c, m, d⟩ (b :: rest) = recvRun ⟨.size1, c ^^^ b, m, d⟩ rest := by
  simp [recvRun]

lemma recvRun_size1_step (b c m : Nat) (d : List Nat) (rest : List Nat) :
    recvRun ⟨.size1, c, m, d⟩ (b :: rest) = recvRun ⟨.size2, c ^^^ b, b <<< 8, d⟩ rest := by
  simp [recvRun]

lemma recvRun_size2_step (b c m : Nat) (d : List Nat) (rest : List Nat) :
    recvRun ⟨.size2, c, m, d⟩ (b :: rest) = recvRun ⟨.token, c ^^^ b, m ||| b, d⟩ rest := by
  simp [recvRun]

lemma recvRun_token_0E (c m : Nat) (d : List Nat) (rest : List Nat) :
    recvRun ⟨.token, c, m, d⟩ (0x0E :: rest) = recvRun ⟨.dataSt, c ^^^ 0x0E, m, []⟩ rest := by
  simp [recvRun]

lemma recvRun_cksum_zero (c m b : Nat) (d : List Nat) (rest : List Nat) (h : c ^^^ b = 0) :
    recvRun ⟨.cksum, c, m, d⟩ (b :: rest) = some d := by
  simp [recvRun, h]

/- ----- claim theorems about receiver resynchronization ----- -/

/-- C6 (counterexample): one garbage byte `0x1B` before a well-formed packet
desynchronizes the receiver: the packet alone yields its payload, but with
the garbage prefix the size field is misread, the token check fails, and the
stream is exhausted without any packet being returned. -/
theorem C6_counterexample :
    packetBytes 0x01 0x00 0x01 [0x00] = [0x1B, 0x01, 0x00, 0x01, 0x0E, 0x00, 0x15] ∧
    recvMessage (packetBytes 0x01 0x00 0x01 [0x00]) = some [0x00] ∧
    recvMessage ([0x1B] ++ packetBytes 0x01 0x00 0x01 [0x00]) = none := by
  decide

/-- C6 (amended): the receiver does resynchronize after garbage that
contains no `0x1B` start byte: for every such garbage prefix and every
well-formed packet with a non-empty payload whose length matches the size
field, `recvMessage` returns exactly the packet's payload. -/
theorem C6_amended (garbage : List Nat) (seq hi lo : Nat) (payload : List Nat)
    (hg : ∀ b ∈ garbage, b ≠ 0x1B)
    (hp : payload ≠ [])
    (hlen : payload.length = (hi <<< 8) ||| lo) :
    recvMessage (garbage ++ packetBytes seq hi lo payload) = some payload := by
  unfold recvMessage packetBytes
  rw [recvRun_skip_garbage garbage _ 0 0 [] hg]
  simp only [List.cons_append, List.nil_append, List.append_assoc]
  rw [recvRun_start_1B, recvRun_getSeq_step, recvRun_size1_step, recvRun_size2_step,
    recvRun_token_0E]
  rw [recvRun_data_phase payload _ _ _ [] (by simpa using hlen) hp]
  rw [recvRun_cksum_zero _ _ _ _ _ ?hck]
  case hck =>
    simp only [List.foldl_cons, Nat.zero_xor, Nat.xor_self]
  simp

/-- C6 (witness): two garbage bytes without `0x1B` followed by the packet
`seq=3, size=2, payload=[0xAA, 0xBB]` are parsed to exactly that payload. -/
theorem C6_witness :
    recvMessage ([0x00, 0x7F] ++ packetBytes 3 0 2 [0xAA, 0xBB]) = some [0xAA, 0xBB] :=
  C6_amended [0x00, 0x7F] 3 0 2 [0xAA, 0xBB] (by decide) (by decide) (by decide)

/- ===================== CRC32 and compute_crc (src/pydfu.py) ===================== -/

/-- One bit-iteration of the CRC-32 update (polynomial `0xEDB88320`,
reflected form), as in zlib's bitwise definition. -/
def crcTableStep (c : Nat) : Nat :=
  if c % 2 = 1 then (c >>> 1) ^^^ 0xEDB88320 else c >>> 1

/-- The CRC-32 table entry for a byte: eight bit-iterations. -/
def crcTable (b : Nat) : Nat :=
  crcTableStep^[8] b

/-- One byte-update of the running CRC-32 value. -/
def crcStep (crc b : Nat) : Nat :=
  (crc >>> 8) ^^^ crcTable ((crc ^^^ b) &&& 0xFF)

/-- `zlib.crc32` on a byte sequence (modelled by the standard bitwise
CRC-32 algorithm zlib implements: initial value `0xFFFFFFFF`, per-byte table
update, final complement). -/
def crc32 (data : List Nat) : Nat :=
  (data.foldl crcStep 0xFFFFFFFF) ^^^ 0xFFFFFFFF

/-- `pydfu.compute_crc`: the Python expression `0xFFFFFFFF & -zlib.crc32(data) - 1`,
which by precedence is `0xFFFFFFFF & ((-zlib.crc32(data)) - 1)` on unbounded
integers. -/
def compute_crc (data : List Nat) : Nat :=
  (Int.land 0xFFFFFFFF (-(crc32 data : Int) - 1)).toNat

example : crc32 [] = 0 := by decide
example : crc32 [49, 50, 51, 52, 53, 54, 55, 56, 57] = 0xCBF43926 := by decide

lemma crcTableStep_lt {c : Nat} (h : c < 2 ^ 32) : crcTableStep c < 2 ^ 32 := by
  unfold crcTableStep
  split
  · exact Nat.xor_lt_two_pow (by omega) (by norm_num)
  · have := Nat.shiftRight_eq_div_pow c 1
    omega

lemma crcTable_lt {b : Nat} (h : b < 2 ^ 32) : crcTable b < 2 ^ 32 := by
  unfold crcTable
  have haux : ∀ n c, c < 2 ^ 32 → crcTableStep^[n] c < 2 ^ 32 := by
    intro n
    induction n with
    | zero => intro c hc; simpa using hc
    | succ k ih =>
      intro c hc
      rw [Function.iterate_succ_apply]
      exact ih _ (crcTableStep_lt hc)
  exact haux 8 b h

lemma crcStep_lt {crc : Nat} (b : Nat) (h : crc < 2 ^ 32) : crcStep crc b < 2 ^ 32 := by
  unfold crcStep
  apply Nat.xor_lt_two_pow
  · have := Nat.shiftRight_eq_div_pow crc 8
    have := Nat.div_le_self crc (2 ^ 8)
    omega
  · apply crcTable_lt
    have := @Nat.and_le_right (crc ^^^ b) 0xFF
    omega

lemma foldl_crcStep_lt (l : List Nat) : ∀ c, c < 2 ^ 32 → l.foldl crcStep c < 2 ^ 32 := by
  induction l with
  | nil => intro c hc; simpa using hc
  | cons b t ih => intro c hc; exact ih _ (crcStep_lt b hc)

lemma crc32_lt (data : List Nat) : crc32 data < 2 ^ 32 :=
  Nat.xor_lt_two_pow (foldl_crcStep_lt data _ (by norm_num)) (by norm_num)

lemma ldiff_allones {x : Nat} (hx : x < 2 ^ 32) :
    Nat.ldiff 0xFFFFFFFF x = 0xFFFFFFFF ^^^ x := by
  apply Nat.eq_of_testBit_eq
  intro i
  rw [Nat.testBit_ldiff, Nat.testBit_xor,
    show (0xFFFFFFFF : Nat) = 2 ^ 32 - 1 by norm_num, Nat.testBit_two_pow_sub_one]
  by_cases hi : i < 32
  · simp [hi]
  · have hxi : x.testBit i = false :=
      Nat.testBit_lt_two_pow (lt_of_lt_of_le hx (Nat.pow_le_pow_right (by norm_num) (by omega)))
    simp [hi, hxi]

lemma compute_crc_eq_xor (data : List Nat) :
    compute_crc data = 0xFFFFFFFF ^^^ crc32 data := by
  unfold compute_crc
  rw [show -(crc32 data : Int) - 1 = Int.negSucc (crc32 data) from (Int.negSucc_eq' _).symm]
  rw [show Int.land 0xFFFFFFFF (Int.negSucc (crc32 data)) =
      ((Nat.ldiff 0xFFFFFFFF (crc32 data) : Nat) : Int) from rfl]
  rw [Int.toNat_ofNat]
  exact ldiff_allones (crc32_lt data)

/-- C10: `compute_crc` is the bitwise one's-complement of `zlib.crc32`
reduced modulo `2^32` — the Python `0xFFFFFFFF & -crc - 1` expression, read
with unary minus and binary subtraction binding tighter than `&`, equals
`0xFFFFFFFF XOR crc32(data)`, the inverted CRC32 that `read_dfu_file`
compares against the stored suffix CRC. -/
theorem C10_compute_crc_is_complement (data : List Nat) :
    compute_crc data = 0xFFFFFFFF ^^^ crc32 data :=
  compute_crc_eq_xor data

/- ----- CRC-32 detects any single-byte change ----- -/

set_option maxHeartbeats 4000000 in
set_option maxRecDepth 10000 in
lemma crcTableTop_nodup : ((List.range 256).map (fun i => crcTable i >>> 24)).Nodup := by
  decide

lemma crcTable_top_inj {i j : Nat} (hi : i < 256) (hj : j < 256)
    (h : crcTable i >>> 24 = crcTable j >>> 24) : i = j := by
  have hi2 : i < ((List.range 256).map (fun k => crcTable k >>> 24)).length := by simpa using hi
  have hj2 : j < ((List.range 256).map (fun k => crcTable k >>> 24)).length := by simpa using hj
  have := (@List.Nodup.getElem_inj_iff _ _ crcTableTop_nodup i hi2 j hj2).mp
  simp only [List.getElem_map, List.getElem_range] at this
  exact this h

lemma crcTable_inj {i j : Nat} (hi : i < 256) (hj : j < 256)
    (h : crcTable i = crcTable j) : i = j :=
  crcTable_top_inj hi hj (by rw [h])

lemma shiftRight_xor_distrib (x y k : Nat) : (x ^^^ y) >>> k = (x >>> k) ^^^ (y >>> k) := by
  apply Nat.eq_of_testBit_eq
  intro i
  simp [Nat.testBit_shiftRight, Nat.testBit_xor]

lemma idx_lt_256 (c b : Nat) : (c ^^^ b) &&& 0xFF < 256 := by
  have := @Nat.and_le_right (c ^^^ b) 0xFF
  omega

lemma and_255_eq_mod (x : Nat) : x &&& 0xFF = x % 256 := by
  rw [show (0xFF : Nat) = 2 ^ 8 - 1 by norm_num, Nat.and_pow_two_sub_one_eq_mod]

lemma crcStep_inj_crc {c1 c2 : Nat} (b : Nat) (h1 : c1 < 2 ^ 32) (h2 : c2 < 2 ^ 32)
    (h : crcStep c1 b = crcStep c2 b) : c1 = c2 := by
  unfold crcStep at h
  have hz : ∀ c : Nat, c < 2 ^ 32 → c >>> 8 >>> 24 = 0 := by
    intro c hc
    rw [← Nat.shiftRight_add, Nat.shiftRight_eq_div_pow]
    exact Nat.div_eq_of_lt (by exact_mod_cast hc)
  have htop : crcTable ((c1 ^^^ b) &&& 0xFF) >>> 24 = crcTable ((c2 ^^^ b) &&& 0xFF) >>> 24 := by
    have e := congrArg (fun z => z >>> 24) h
    simp only [] at e
    rw [shiftRight_xor_distrib, shiftRight_xor_distrib, hz c1 h1, hz c2 h2,
      Nat.zero_xor, Nat.zero_xor] at e
    exact e
  have hidx : (c1 ^^^ b) &&& 0xFF = (c2 ^^^ b) &&& 0xFF :=
    crcTable_top_inj (idx_lt_256 c1 b) (idx_lt_256 c2 b) htop
  have hhigh : c1 >>> 8 = c2 >>> 8 := by
    rw [hidx] at h
    exact Nat.xor_left_inj.mp h
  have hlow : c1 &&& 0xFF = c2 &&& 0xFF := by
    rw [Nat.and_xor_distrib_right, Nat.and_xor_distrib_right] at hidx
    exact Nat.xor_left_inj.mp hidx
  have hd1 : c1 >>> 8 = c1 / 256 := by rw [Nat.shiftRight_eq_div_pow]
  have hd2 : c2 >>> 8 = c2 / 256 := by rw [Nat.shiftRight_eq_div_pow]
  rw [and_255_eq_mod, and_255_eq_mod] at hlow
  rw [hd1, hd2] at hhigh
  omega

lemma crcStep_inj_byte {c b1 b2 : Nat} (hb1 : b1 < 256) (hb2 : b2 < 256) (hne : b1 ≠ b2) :
    crcStep c b1 ≠ crcStep c b2 := by
  intro h
  unfold crcStep at h
  have hT := Nat.xor_right_inj.mp h
  have hidx : (c ^^^ b1) &&& 0xFF = (c ^^^ b2) &&& 0xFF :=
    crcTable_inj (idx_lt_256 c b1) (idx_lt_256 c b2) hT
  rw [Nat.and_xor_distrib_right, Nat.and_xor_distrib_right,
    and_255_eq_mod b1, and_255_eq_mod b2,
    Nat.mod_eq_of_lt hb1, Nat.mod_eq_of_lt hb2] at hidx
  exact hne (Nat.xor_right_inj.mp hidx)

lemma foldl_crcStep_inj (suffix : List Nat) :
    ∀ c1 c2, c1 < 2 ^ 32 → c2 < 2 ^ 32 → c1 ≠ c2 →
      suffix.foldl crcStep c1 ≠ suffix.foldl crcStep c2 := by
  induction suffix with
  | nil => intro c1 c2 _ _ hne; simpa using hne
  | cons b t ih =>
    intro c1 c2 h1 h2 hne
    simp only [List.foldl_cons]
    exact ih _ _ (crcStep_lt b h1) (crcStep_lt b h2)
      (fun he => hne (crcStep_inj_crc b h1 h2 he))

lemma crc32_single_flip {a b : List Nat} {x y : Nat} (hx : x < 256) (hy : y < 256)
    (hne : x ≠ y) : crc32 (a ++ x :: b) ≠ crc32 (a ++ y :: b) := by
  unfold crc32
  intro h
  have h2 := Nat.xor_left_inj.mp h
  rw [List.foldl_append, List.foldl_append, List.foldl_cons, List.foldl_cons] at h2
  have hc : a.foldl crcStep 0xFFFFFFFF < 2 ^ 32 := foldl_crcStep_lt a _ (by norm_num)
  exact foldl_crcStep_inj b _ _ (crcStep_lt x hc) (crcStep_lt y hc)
    (crcStep_inj_byte hx hy hne) h2

lemma compute_crc_single_flip {a b : List Nat} {x y : Nat} (hx : x < 256) (hy : y < 256)
    (hne : x ≠ y) : compute_crc (a ++ x :: b) ≠ compute_crc (a ++ y :: b) := by
  rw [compute_crc_eq_xor, compute_crc_eq_xor]
  intro h
  exact crc32_single_flip hx hy hne (Nat.xor_right_inj.mp h)

/- ===================== DfuSe file parsing (pydfu.read_dfu_file) ===================== -/

/-- Failure modes of `read_dfu_file`: `struct.error` from unpacking a short
buffer, the CRC-mismatch early return, and the trailing-bytes early return
(the Python code prints a message and returns `None` for the latter two). -/
inductive DfuErr
  | structError
  | crcMismatch
  | trailingBytes
  deriving DecidableEq, Repr

/-- One parsed DfuSe element: target address, stored size, and raw data. -/
structure DfuElement where
  addr : Nat
  size : Nat
  data : List Nat
  deriving DecidableEq, Repr

/-- The 16-byte DFU suffix fields (`struct.unpack("<4H3sBI", data[:16])`). -/
structure DfuSuffix where
  device : Nat
  product : Nat
  vendor : Nat
  dfu : Nat
  ufd : List Nat
  len : Nat
  crc : Nat
  deriving DecidableEq, Repr

/-- Little-endian 16-bit word from the first two bytes of a slice. -/
def u16le (l : List Nat) : Nat :=
  l.getD 0 0 + (l.getD 1 0) <<< 8

/-- Little-endian 32-bit word from the first four bytes of a slice. -/
def u32le (l : List Nat) : Nat :=
  l.getD 0 0 + (l.getD 1 0) <<< 8 + (l.getD 2 0) <<< 16 + (l.getD 3 0) <<< 24

/-- The per-target element loop of `read_dfu_file`: each iteration unpacks
`(addr, size)` (8 bytes; a shorter buffer raises `struct.error`), then takes
`size` raw bytes (truncating silently like a Python slice). -/
def parseElems : Nat → List Nat → Except DfuErr (List DfuElement × List Nat)
  | 0, td => .ok ([], td)
  | n + 1, td =>
    if td.length < 8 then .error .structError else
    let addr := u32le (td.take 4)
    let sz := u32le ((td.drop 4).take 4)
    let rest := td.drop 8
    exBind (parseElems n ((rest.drop sz))) fun pr =>
    .ok (⟨addr, sz, rest.take sz⟩ :: pr.1, pr.2)

/-- The target loop of `read_dfu_file`: each iteration unpacks the 274-byte
image header `<6sBI255s2I` (field `size` at offset 266, `elements` at 270),
splits off `size` bytes of target data, and parses the elements from it.
Leftover target bytes are only printed (`"PARSE ERROR"`), not fatal. -/
def parseTargets : Nat → List Nat → Except DfuErr (List DfuElement × List Nat)
  | 0, d => .ok ([], d)
  | n + 1, d =>
    if d.length < 274 then .error .structError else
    let tsize := u32le ((d.drop 266).take 4)
    let ecount := u32le ((d.drop 270).take 4)
    let rest := d.drop 274
    exBind (parseElems ecount (rest.take tsize)) fun pe =>
    exBind (parseTargets n (rest.drop tsize)) fun pt =>
    .ok (pe.1 ++ pt.1, pt.2)

/-- Structural part of `read_dfu_file` up to (and including) unpacking the
16-byte DFU suffix: the 11-byte prefix `<5sBIB` (target count at offset 10),
the target loop, then the suffix fields from the next 16 bytes; returns the
collected elements, the suffix, and the bytes after the suffix.  Signature
fields are not validated anywhere, exactly as in the source. -/
def parseToSuffix (file : List Nat) : Except DfuErr (List DfuElement × DfuSuffix × List Nat) :=
  if file.length < 11 then .error .structError else
  exBind (parseTargets (file.getD 10 0) (file.drop 11)) fun pt =>
  let d2 := pt.2
  if d2.length < 16 then .error .structError else
  .ok (pt.1,
    ⟨u16le (d2.take 2), u16le ((d2.drop 2).take 2), u16le ((d2.drop 4).take 2),
     u16le ((d2.drop 6).take 2), (d2.drop 8).take 3, d2.getD 11 0,
     u32le ((d2.drop 12).take 4)⟩,
    d2.drop 16)

/-- `pydfu.read_dfu_file` on the file's bytes: `compute_crc` over all bytes
except the trailing 4-byte CRC field is compared with the stored suffix CRC
(mismatch returns `None` after printing `"CRC ERROR"`); bytes left after the
suffix return `None` after printing `"PARSE ERROR"`; otherwise the element
list is returned. -/
def read_dfu_file (file : List Nat) : Except DfuErr (List DfuElement) :=
  exBind (parseToSuffix file) fun pr =>
  if compute_crc (file.take (file.length - 4)) ≠ pr.2.1.crc then .error .crcMismatch
  else if pr.2.2 ≠ [] then .error .trailingBytes
  else .ok pr.1

/- ----- structural lemmas about the DfuSe parse ----- -/

lemma parseElems_drop (n : Nat) :
    ∀ (td : List Nat) (es : List DfuElement) (r : List Nat),
      parseElems n td = .ok (es, r) → ∃ m, r = td.drop m := by
  induction n with
  | zero =>
    intro td es r h
    simp only [parseElems, Except.ok.injEq, Prod.mk.injEq] at h
    exact ⟨0, h.2.symm⟩
  | succ n ih =>
    intro td es r h
    rw [parseElems] at h
    by_cases hlen : td.length < 8
    · rw [if_pos hlen] at h; exact absurd h (by simp)
    · rw [if_neg hlen] at h
      simp only [] at h
      rcases hrec : parseElems n ((td.drop 8).drop (u32le ((td.drop 4).take 4))) with e | pr
      · rw [hrec] at h; exact absurd h (by simp [exBind])
      · rw [hrec, exBind_ok] at h
        simp only [Except.ok.injEq, Prod.mk.injEq] at h
        obtain ⟨m, hm⟩ := ih _ _ _ hrec
        refine ⟨8 + u32le ((td.drop 4).take 4) + m, ?_⟩
        rw [← h.2, hm, List.drop_drop, List.drop_drop, Nat.add_assoc]

lemma parseTargets_drop (n : Nat) :
    ∀ (d : List Nat) (es : List DfuElement) (r : List Nat),
      parseTargets n d = .ok (es, r) → ∃ m, r = d.drop m := by
  induction n with
  | zero =>
    intro d es r h
    simp only [parseTargets, Except.ok.injEq, Prod.mk.injEq] at h
    exact ⟨0, h.2.symm⟩
  | succ n ih =>
    intro d es r h
    rw [parseTargets] at h
    by_cases hlen : d.length < 274
    · rw [if_pos hlen] at h; exact absurd h (by simp)
    · rw [if_neg hlen] at h
      simp only [] at h
      rcases he : parseElems (u32le ((d.drop 270).take 4))
          ((d.drop 274).take (u32le ((d.drop 266).take 4))) with e | pe
      · rw [he] at h; exact absurd h (by simp [exBind])
      · rw [he, exBind_ok] at h
        rcases ht : parseTargets n ((d.drop 274).drop (u32le ((d.drop 266).take 4))) with e | pt
        · rw [ht] at h; exact absurd h (by simp [exBind])
        · rw [ht, exBind_ok] at h
          simp only [Except.ok.injEq, Prod.mk.injEq] at h
          obtain ⟨m, hm⟩ := ih _ _ _ ht
          refine ⟨274 + u32le ((d.drop 266).take 4) + m, ?_⟩
          rw [← h.2, hm, List.drop_drop, List.drop_drop, Nat.add_assoc]

lemma parseToSuffix_shape (file : List Nat) (es : List DfuElement) (suf : DfuSuffix)
    (rest : List Nat) (h : parseToSuffix file = .ok (es, suf, rest)) :
    ∃ M, 16 ≤ (file.drop M).length ∧
      suf.crc = u32le (((file.drop M).drop 12).take 4) ∧ rest = (file.drop M).drop 16 := by
  rw [parseToSuffix] at h
  by_cases h11 : file.length < 11
  · rw [if_pos h11] at h; exact absurd h (by simp)
  · rw [if_neg h11] at h
    rcases ht : parseTargets (file.getD 10 0) (file.drop 11) with e | pt
    · rw [ht] at h; exact absurd h (by simp [exBind])
    · rw [ht, exBind_ok] at h
      simp only [] at h
      by_cases h16 : pt.2.length < 16
      · rw [if_pos h16] at h; exact absurd h (by simp)
      · rw [if_neg h16] at h
        simp only [Except.ok.injEq, Prod.mk.injEq] at h
        obtain ⟨m, hm⟩ := parseTargets_drop _ _ _ _ ht
        refine ⟨11 + m, ?_, ?_, ?_⟩
        · rw [← List.drop_drop, ← hm]; omega
        · rw [← List.drop_drop, ← hm, ← h.2.1]
        · rw [← List.drop_drop, ← hm, ← h.2.2]

lemma read_dfu_ok_crc (file : List Nat) (es : List DfuElement)
    (h : read_dfu_file file = .ok es) :
    16 ≤ file.length ∧
      compute_crc (file.take (file.length - 4)) =
        u32le ((file.drop (file.length - 4)).take 4) := by
  rw [read_dfu_file] at h
  rcases hpt : parseToSuffix file with e | pr
  · rw [hpt] at h; exact absurd h (by simp [exBind])
  · rw [hpt, exBind_ok] at h
    by_cases hcrc : compute_crc (file.take (file.length - 4)) ≠ pr.2.1.crc
    · rw [if_pos hcrc] at h; exact absurd h (by simp)
    · rw [if_neg hcrc] at h
      by_cases hrest : pr.2.2 ≠ []
      · rw [if_pos hrest] at h; exact absurd h (by simp)
      · push_neg at hcrc hrest
        obtain ⟨M, hM16, hMcrc, hMrest⟩ :=
          parseToSuffix_shape file pr.1 pr.2.1 pr.2.2 (by rw [hpt])
        rw [hMrest] at hrest
        have h2 : (file.drop M).length = file.length - M := by simp
        have h3 : ((file.drop M).drop 16).length = (file.drop M).length - 16 := by
          simp
          omega
        have h4 : ((file.drop M).drop 16).length = 0 := by rw [hrest]; simp
        constructor
        · omega
        · rw [hcrc, hMcrc, List.drop_drop]
          have hM : M + 12 = file.length - 4 := by omega
          rw [hM]

lemma eq_take_cons_drop (l : List Nat) (k : Nat) (h : k < l.length) :
    l = l.take k ++ l.getD k 0 :: l.drop (k + 1) := by
  conv_lhs => rw [← List.take_append_drop (k + 1) l]
  rw [← List.take_concat_get' l k h]
  simp [List.append_assoc, List.getD_eq_getElem?_getD, List.getElem?_eq_getElem h]

lemma set_eq_take_cons_drop (l : List Nat) (k y : Nat) (h : k < l.length) :
    l.set k y = l.take k ++ y :: l.drop (k + 1) := by
  have h2 : k < (l.set k y).length := by simpa using h
  rw [eq_take_cons_drop (l.set k y) k h2]
  rw [List.set_take, List.set_eq_of_length_le (by simp [List.length_take])]
  rw [List.drop_set, if_pos (by omega)]
  congr 1
  rw [List.getD_eq_getElem?_getD, List.getElem?_set_self h, Option.getD_some]

lemma getD_take_of_lt (l : List Nat) (k n : Nat) (h : k < n) :
    (l.take n).getD k 0 = l.getD k 0 := by
  rw [List.getD_eq_getElem?_getD, List.getD_eq_getElem?_getD, List.getElem?_take_of_lt h]

/- ----- claim theorems about DfuSe CRC validation ----- -/

/-- C2 (amended): an input that parses structurally to the suffix but whose
stored CRC differs from the computed one fails with the CRC-mismatch error;
and flipping any single byte outside the trailing CRC field of a
successfully-parsing file makes `read_dfu_file` fail — with the CRC-mismatch
error when parsing still reaches the CRC comparison, or with an earlier
parse error when the flip breaks the structure — rather than return
elements. -/
theorem C2_amended :
    (∀ (file : List Nat) (es : List DfuElement) (suf : DfuSuffix) (rest : List Nat),
        parseToSuffix file = .ok (es, suf, rest) →
        suf.crc ≠ compute_crc (file.take (file.length - 4)) →
        read_dfu_file file = .error .crcMismatch) ∧
    (∀ (file : List Nat) (es : List DfuElement) (k y : Nat),
        read_dfu_file file = .ok es →
        k + 4 < file.length →
        (∀ b ∈ file, b < 256) → y < 256 → y ≠ file.getD k 0 →
        ∀ es2, read_dfu_file (file.set k y) ≠ .ok es2) := by
  constructor
  · intro file es suf rest hpt hcrc
    rw [read_dfu_file, hpt, exBind_ok]
    rw [if_pos (Ne.symm hcrc)]
  · intro file es k y hok hk hbytes hy hne es2 hok2
    obtain ⟨hlen1, hcrc1⟩ := read_dfu_ok_crc file es hok
    obtain ⟨hlen2, hcrc2⟩ := read_dfu_ok_crc _ es2 hok2
    rw [List.length_set] at hcrc2
    rw [List.drop_set, if_pos (by omega)] at hcrc2
    rw [List.set_take] at hcrc2
    have heq : compute_crc (file.take (file.length - 4)) =
        compute_crc ((file.take (file.length - 4)).set k y) := hcrc1.trans hcrc2.symm
    set A := file.take (file.length - 4) with hA
    have hklen : k < A.length := by
      rw [hA, List.length_take]
      omega
    have hxval : A.getD k 0 = file.getD k 0 := getD_take_of_lt file k _ (by omega)
    have hkfile : k < file.length := by omega
    have hxmem : file.getD k 0 ∈ file := by
      rw [List.getD_eq_getElem?_getD, List.getElem?_eq_getElem hkfile, Option.getD_some]
      exact List.getElem_mem hkfile
    have hxlt : A.getD k 0 < 256 := by rw [hxval]; exact hbytes _ hxmem
    have hxne : A.getD k 0 ≠ y := by rw [hxval]; exact Ne.symm hne
    have hA1 : A = A.take k ++ A.getD k 0 :: A.drop (k + 1) := eq_take_cons_drop A k hklen
    have hA2 : A.set k y = A.take k ++ y :: A.drop (k + 1) := set_eq_take_cons_drop A k y hklen
    have hflip := @compute_crc_single_flip (A.take k) (A.drop (k + 1)) _ _ hxlt hy hxne
    rw [← hA1, ← hA2] at hflip
    exact hflip heq

/-- A minimal valid DfuSe container: 11-byte prefix ("DfuSe", version 1,
size 11, zero targets) followed by the 16-byte suffix (device/product/vendor
0xFFFF, dfu 0x011A, "UFD", length 16) whose CRC field is still to come. -/
def dfuWitnessBody : List Nat :=
  [0x44, 0x66, 0x75, 0x53, 0x65, 1, 11, 0, 0, 0, 0,
   0xFF, 0xFF, 0xFF, 0xFF, 0xFF, 0xFF, 0x1A, 0x01, 0x55, 0x46, 0x44, 16]

/-- The container above completed with its correct little-endian CRC
`0xC6526F74 = compute_crc dfuWitnessBody`. -/
def dfuWitnessFile : List Nat := dfuWitnessBody ++ [116, 111, 82, 198]

lemma dfuWitnessBody_crc : compute_crc dfuWitnessBody = 0xC6526F74 := by
  rw [compute_crc_eq_xor]
  decide

lemma dfuWitnessFile_ok : read_dfu_file dfuWitnessFile = .ok [] := by
  rw [read_dfu_file,
    show parseToSuffix dfuWitnessFile =
      .ok ([], ⟨0xFFFF, 0xFFFF, 0xFFFF, 0x011A, [0x55, 0x46, 0x44], 16, 0xC6526F74⟩, [])
      from by decide,
    exBind_ok]
  rw [if_neg (by
    rw [show dfuWitnessFile.take (dfuWitnessFile.length - 4) = dfuWitnessBody from by decide,
      dfuWitnessBody_crc]
    simp)]
  simp

/-- C2 (counterexample): flipping the target-count byte (index 10, outside
the CRC field) of a valid DfuSe file makes `read_dfu_file` fail with a
`struct.error` from unpacking a missing 274-byte target header — an
exception raised before the CRC comparison is ever reached — not with the
CRC-mismatch failure the claim requires. -/
theorem C2_counterexample :
    read_dfu_file dfuWitnessFile = .ok [] ∧
    dfuWitnessFile.getD 10 0 = 0 ∧
    read_dfu_file (dfuWitnessFile.set 10 1) = .error .structError ∧
    DfuErr.structError ≠ DfuErr.crcMismatch := by
  refine ⟨dfuWitnessFile_ok, by decide, by decide, by decide⟩

/-- C2 (witness): a zero-target container whose stored CRC field is zeroed
fails with the CRC mismatch, and flipping the first signature byte of the
valid container never yields elements. -/
theorem C2_witness :
    read_dfu_file (dfuWitnessBody ++ [0, 0, 0, 0]) = .error .crcMismatch ∧
    read_dfu_file (dfuWitnessFile.set 0 0x45) ≠ .ok [] := by
  constructor
  · apply C2_amended.1 (dfuWitnessBody ++ [0, 0, 0, 0]) []
      ⟨0xFFFF, 0xFFFF, 0xFFFF, 0x011A, [0x55, 0x46, 0x44], 16, 0⟩ []
    · decide
    · have hb : (dfuWitnessBody ++ [0, 0, 0, 0]).take
          ((dfuWitnessBody ++ [0, 0, 0, 0]).length - 4) = dfuWitnessBody := by decide
      rw [hb, dfuWitnessBody_crc]
      simp
  · exact C2_amended.2 dfuWitnessFile [] 0 0x45 dfuWitnessFile_ok (by decide) (by decide)
      (by decide) (by decide) []

/- ===================== Memory layout (pydfu.get_memory_layout) ===================== -/

/-- One entry of the device memory layout, with the dictionary keys of the
Python result. -/
structure MemSegment where
  addr : Nat
  last_addr : Nat
  size : Nat
  num_pages : Nat
  page_size : Nat
  deriving DecidableEq, Repr

/-- Python `str.split(sep)` for a one-character separator (an empty input
yields one empty field, and separators at the ends yield empty fields). -/
def splitOnChar (sep : Char) : List Char → List (List Char)
  | [] => [[]]
  | c :: t =>
    let r := splitOnChar sep t
    if c = sep then [] :: r
    else
      match r with
      | [] => [[c]]
      | h :: t2 => (c :: h) :: t2

/-- Value of a decimal-digit string. -/
def decVal (s : List Char) : Nat :=
  s.foldl (fun a c => 10 * a + (c.toNat - 48)) 0

/-- Python `int(x, 0)` on the address tokens this parser sees: a `0x`/`0X`
prefix selects hexadecimal, otherwise the token is read as decimal; an empty
or non-numeric token is a `ValueError` (`none`).  (Base-0 forms not produced
by memory-layout descriptors — `0b`/`0o` prefixes, signs, underscores and
the leading-zero rejection — are outside the model.) -/
def parseIntBase0 (s : List Char) : Option Nat :=
  match s with
  | '0' :: x :: rest =>
    if x = 'x' ∨ x = 'X' then
      if rest ≠ [] ∧ rest.all isHexDigitChar then some (hexVal rest) else none
    else if (x :: rest).all Char.isDigit then some (decVal ('0' :: x :: rest)) else none
  | _ => if s ≠ [] ∧ s.all Char.isDigit then some (decVal s) else none

/-- Prefix match of the segment regex `(\d+)\*(\d+)(.)(.)`: greedy digit
groups with the up-to-two-character give-back the final two dot groups force,
and `.` not matching a newline.  Returns `(num_pages, page_size, multiplier,
attribute)`; `none` models the `AttributeError` the Python code hits when
`seg_re.match` returns `None`. -/
def segRegexMatch (s : List Char) : Option (Nat × Nat × Char × Char) :=
  let d1 := s.takeWhile Char.isDigit
  let r1 := s.dropWhile Char.isDigit
  if d1 = [] then none else
  match r1 with
  | '*' :: r2 =>
    let ds := r2.takeWhile Char.isDigit
    let r3 := r2.dropWhile Char.isDigit
    if ds = [] then none else
    if 2 ≤ r3.length then
      match r3 with
      | m :: a :: _ => if m ≠ '\n' ∧ a ≠ '\n' then some (decVal d1, decVal ds, m, a) else none
      | _ => none
    else
      let need := 2 - r3.length
      if need + 1 ≤ ds.length then
        match ds.drop (ds.length - need) ++ r3 with
        | m :: a :: _ =>
          if m ≠ '\n' ∧ a ≠ '\n' then
            some (decVal d1, decVal (ds.take (ds.length - need)), m, a)
          else none
        | _ => none
      else none
  | _ => none

/-- Inner loop of `get_memory_layout` over one comma-separated segment list:
each segment token is matched against the regex, the `K`/`M` multipliers are
applied, and consecutive segments are laid out contiguously (`addr += size`). -/
def segsGo (addr : Nat) : List (List Char) → Option (List MemSegment)
  | [] => some []
  | s :: ss =>
    match segRegexMatch s with
    | none => none
    | some g =>
      let np := g.1
      let ps0 := g.2.1
      let mult := g.2.2.1
      let ps1 := if mult = 'K' then ps0 * 1024 else ps0
      let ps := if mult = 'M' then ps1 * 1024 * 1024 else ps1
      let size := np * ps
      match segsGo (addr + size) ss with
      | none => none
      | some segs => some (⟨addr, addr + size - 1, size, np, ps⟩ :: segs)

/-- Outer loop of `get_memory_layout` over the `/`-separated descriptor:
fields at odd indices are base addresses, each followed by its segment field
(a missing segment field is the Python `IndexError`, a bad address token the
`ValueError`, both `none`). -/
def groupsGo : List (List Char) → Option (List MemSegment)
  | [] => some []
  | [_] => none
  | addrTok :: segTok :: more =>
    match parseIntBase0 addrTok with
    | none => none
    | some addr =>
      match segsGo addr (splitOnChar ',' segTok) with
      | none => none
      | some segs =>
        match groupsGo more with
        | none => none
        | some segs2 => some (segs ++ segs2)

/-- `pydfu.get_memory_layout` on the device's memory-layout descriptor
string (index 0 of the split holds the name, e.g. `"@Internal Flash"`, and
is skipped). -/
def get_memory_layout (descr : List Char) : Option (List MemSegment) :=
  match splitOnChar '/' descr with
  | [] => some []
  | _ :: rest => groupsGo rest

/-- C3 (counterexample): the descriptor of the claim parses to a first
segment covering 4 × 16K = 64K ending at `0x0800FFFF` — not at `0x08003FFF`
— and a second segment `0x08010000 .. 0x0801FFFF`, not
`0x08004000 .. 0x08013FFF`. -/
theorem C3_counterexample :
    get_memory_layout ("@Flash/0x08000000/04*016Kg,01*064Kg").data =
      some [⟨0x08000000, 0x0800FFFF, 65536, 4, 16384⟩,
            ⟨0x08010000, 0x0801FFFF, 65536, 1, 65536⟩] ∧
    ((get_memory_layout ("@Flash/0x08000000/04*016Kg,01*064Kg").data).map
        (fun segs => segs.map MemSegment.last_addr)) ≠ some [0x08003FFF, 0x08013FFF] := by
  constructor
  · decide
  · decide

/-- C3 (amended): the descriptor `"@Flash/0x08000000/04*016Kg,01*064Kg"` at
base `0x08000000` yields exactly two segments: the first spanning
`0x08000000 .. 0x0800FFFF` with 4 pages of 16K (64K total), the second
spanning `0x08010000 .. 0x0801FFFF` with 1 page of 64K, the second segment
starting immediately after the end of the first. -/
theorem C3_amended :
    get_memory_layout ("@Flash/0x08000000/04*016Kg,01*064Kg").data =
      some [⟨0x08000000, 0x0800FFFF, 4 * 16384, 4, 16384⟩,
            ⟨0x0800FFFF + 1, 0x0800FFFF + 1 + 1 * 65536 - 1, 1 * 65536, 1, 65536⟩] := by
  decide

/- ===================== DFU engine traces (pydfu.init / write_elements) ===================== -/

/-- Observable DFU commands and callbacks of the engine.  The per-command
busy/idle `GETSTATUS` pairs of `check_status` are not traced: the model
assumes a device that reports the expected statuses (any other reply makes
the Python code exit). -/
inductive DfuAction
  | getStatus (st : Nat)
  | clrStatus
  | abortReq
  | massErase
  | pageErase (addr : Nat)
  | setAddress (addr : Nat)
  | dnload (data : List Nat)
  | progress (addr off size : Nat)
  deriving DecidableEq, Repr

/-- Failures `pydfu.init` raises before its status loop. -/
inductive InitErr
  | noDfuDevice
  | multipleDfuDevices
  deriving DecidableEq, Repr

/-- The `for attempt in range(4)` status loop of `init`, with the device
modelled by its stream of `GETSTATUS` states: stop at `DFU_IDLE` (2), send
`ABORT` after `DOWNLOAD_IDLE` (5) or `UPLOAD_IDLE` (9), else `CLRSTATUS`. -/
def initLoopGo (dev : Nat → Nat) : Nat → Nat → List DfuAction
  | 0, _ => []
  | f + 1, i =>
    let st := dev i
    DfuAction.getStatus st ::
      (if st = 2 then []
       else (if st = 5 ∨ st = 9 then [DfuAction.abortReq] else [DfuAction.clrStatus]) ++
         initLoopGo dev f (i + 1))

/-- The status-poll phase of `init`, entered with a budget of 4 attempts. -/
def initStatusLoop (dev : Nat → Nat) : List DfuAction :=
  initLoopGo dev 4 0

/-- `pydfu.init` on the discovered device list (each device modelled by its
status stream): `ValueError` when no or several DFU devices are found,
otherwise the status loop runs and `init` returns normally — the loop body
itself raises nothing. -/
def init (devices : List (Nat → Nat)) : Except InitErr (List DfuAction) :=
  match devices with
  | [] => .error .noDfuDevice
  | [dev] => .ok (initStatusLoop dev)
  | _ => .error .multipleDfuDevices

/-- Number of `GETSTATUS` polls in a trace. -/
def pollCount : List DfuAction → Nat
  | [] => 0
  | .getStatus _ :: t => pollCount t + 1
  | .clrStatus :: t => pollCount t
  | .abortReq :: t => pollCount t
  | .massErase :: t => pollCount t
  | .pageErase _ :: t => pollCount t
  | .setAddress _ :: t => pollCount t
  | .dnload _ :: t => pollCount t
  | .progress _ _ _ :: t => pollCount t

/-- Shape of a legal poll trace: stops at the first `DFU_IDLE` poll, and
every non-idle poll is immediately followed by `ABORT` for
`DOWNLOAD_IDLE`/`UPLOAD_IDLE` and by `CLRSTATUS` otherwise. -/
inductive PollOk : List DfuAction → Prop
  | nil : PollOk []
  | idle : PollOk [.getStatus 2]
  | abortStep (s : Nat) (t : List DfuAction) (hs : s ≠ 2) (h59 : s = 5 ∨ s = 9)
      (ht : PollOk t) : PollOk (.getStatus s :: .abortReq :: t)
  | clrStep (s : Nat) (t : List DfuAction) (hs : s ≠ 2) (h59 : ¬(s = 5 ∨ s = 9))
      (ht : PollOk t) : PollOk (.getStatus s :: .clrStatus :: t)

lemma initLoopGo_pollOk (dev : Nat → Nat) : ∀ f i, PollOk (initLoopGo dev f i) := by
  intro f
  induction f with
  | zero => intro i; exact PollOk.nil
  | succ f ih =>
    intro i
    rw [initLoopGo]
    by_cases h2 : dev i = 2
    · rw [if_pos h2, h2]
      exact PollOk.idle
    · rw [if_neg h2]
      by_cases h59 : dev i = 5 ∨ dev i = 9
      · rw [if_pos h59]
        exact PollOk.abortStep _ _ h2 h59 (ih (i + 1))
      · rw [if_neg h59]
        exact PollOk.clrStep _ _ h2 h59 (ih (i + 1))

lemma initLoopGo_count_le (dev : Nat → Nat) : ∀ f i, pollCount (initLoopGo dev f i) ≤ f := by
  intro f
  induction f with
  | zero => intro i; simp [initLoopGo, pollCount]
  | succ f ih =>
    intro i
    rw [initLoopGo]
    by_cases h2 : dev i = 2
    · rw [if_pos h2]
      simp [pollCount]
    · rw [if_neg h2]
      have := ih (i + 1)
      by_cases h59 : dev i = 5 ∨ dev i = 9
      · rw [if_pos h59]
        simp only [List.singleton_append, pollCount, List.append_eq, List.nil_append]
        omega
      · rw [if_neg h59]
        simp only [List.singleton_append, pollCount, List.append_eq, List.nil_append]
        omega

lemma initLoopGo_count_idle (dev : Nat → Nat) :
    ∀ f i k, k < f → dev (i + k) = 2 → (∀ j, j < k → dev (i + j) ≠ 2) →
      pollCount (initLoopGo dev f i) = k + 1 := by
  intro f
  induction f with
  | zero => intro i k hk; omega
  | succ f ih =>
    intro i k hk hidle hbefore
    rw [initLoopGo]
    cases k with
    | zero =>
      rw [if_pos (by simpa using hidle)]
      simp [pollCount]
    | succ k =>
      have h0 : dev i ≠ 2 := by simpa using hbefore 0 (by omega)
      rw [if_neg h0]
      have hrec := ih (i + 1) k (by omega)
        (by rw [show i + 1 + k = i + (k + 1) by omega]; exact hidle)
        (fun j hj => by rw [show i + 1 + j = i + (j + 1) by omega]; exact hbefore (j + 1) (by omega))
      by_cases h59 : dev i = 5 ∨ dev i = 9
      · rw [if_pos h59]
        simp only [List.singleton_append, pollCount, List.append_eq, List.nil_append, hrec]
      · rw [if_neg h59]
        simp only [List.singleton_append, pollCount, List.append_eq, List.nil_append, hrec]

lemma initLoopGo_count_noidle (dev : Nat → Nat) :
    ∀ f i, (∀ j, j < f → dev (i + j) ≠ 2) → pollCount (initLoopGo dev f i) = f := by
  intro f
  induction f with
  | zero => intro i _; simp [initLoopGo, pollCount]
  | succ f ih =>
    intro i hno
    rw [initLoopGo]
    have h0 : dev i ≠ 2 := by simpa using hno 0 (by omega)
    rw [if_neg h0]
    have hrec := ih (i + 1)
      (fun j hj => by rw [show i + 1 + j = i + (j + 1) by omega]; exact hno (j + 1) (by omega))
    by_cases h59 : dev i = 5 ∨ dev i = 9
    · rw [if_pos h59]
      simp only [List.singleton_append, pollCount, List.append_eq, List.nil_append, hrec]
    · rw [if_neg h59]
      simp only [List.singleton_append, pollCount, List.append_eq, List.nil_append, hrec]

/- ----- claim theorems about the init status loop ----- -/

/-- C8 (counterexample): a device that always reports `DFU_ERROR` (0x0A)
never reaches `DFU_IDLE` within the 4 attempts, yet `init` returns normally
after four poll/clear rounds — no setup failure is reported to the caller. -/
theorem C8_counterexample :
    (∀ i, i < 4 → (10 : Nat) ≠ 2) ∧
    init [fun _ => 10] =
      .ok [.getStatus 10, .clrStatus, .getStatus 10, .clrStatus,
           .getStatus 10, .clrStatus, .getStatus 10, .clrStatus] := by
  exact ⟨fun _ _ => by decide, by decide⟩

/-- C8 (amended): `init` polls `GETSTATUS` at most 4 times, stops at the
first `DFU_IDLE`, answers `DOWNLOAD_IDLE`/`UPLOAD_IDLE` with `ABORT` and any
other state with `CLRSTATUS`; when the device never reaches `DFU_IDLE`
within the 4 attempts the loop simply completes all 4 rounds and `init`
returns normally — no failure is reported to the caller. -/
theorem C8_amended (dev : Nat → Nat) :
    init [dev] = .ok (initStatusLoop dev) ∧
    pollCount (initStatusLoop dev) ≤ 4 ∧
    (∀ k, k < 4 → dev k = 2 → (∀ j, j < k → dev j ≠ 2) →
        pollCount (initStatusLoop dev) = k + 1) ∧
    ((∀ j, j < 4 → dev j ≠ 2) → pollCount (initStatusLoop dev) = 4) ∧
    PollOk (initStatusLoop dev) := by
  refine ⟨rfl, initLoopGo_count_le dev 4 0, ?_, ?_, initLoopGo_pollOk dev 4 0⟩
  · intro k hk hidle hbefore
    exact initLoopGo_count_idle dev 4 0 k hk (by simpa using hidle)
      (fun j hj => by simpa using hbefore j hj)
  · intro hno
    exact initLoopGo_count_noidle dev 4 0 (fun j hj => by simpa using hno j hj)

/-- C8 (witness): for the always-busy device (state `DFU_DOWNLOAD_BUSY`,
0x04) the loop polls exactly 4 times, answers each poll with `CLRSTATUS`,
and `init` returns normally. -/
theorem C8_witness :
    init [fun _ => 4] = .ok (initStatusLoop (fun _ => 4)) ∧
    pollCount (initStatusLoop (fun _ => 4)) = 4 := by
  have h := C8_amended (fun _ => 4)
  exact ⟨h.1, h.2.2.2.1 (fun j _ => by decide)⟩

/- ----- write_elements / write_memory (pydfu) ----- -/

/-- Python `addr & ~(page_size - 1)` on unbounded integers
(`~(p - 1) = -p`). -/
def pageAlign (addr page_size : Nat) : Nat :=
  (Int.land (addr : Int) (-(page_size : Int))).toNat

lemma pageAlign_16K : pageAlign 0x08000000 16384 = 0x08000000 := by
  have h1 : pageAlign 0x08000000 16384 = Nat.ldiff 0x08000000 16383 := rfl
  rw [h1, show (16383 : Nat) = 2 ^ 14 - 1 by norm_num,
    show (0x08000000 : Nat) = 2 ^ 27 by norm_num]
  apply Nat.eq_of_testBit_eq
  intro i
  rw [Nat.testBit_ldiff, Nat.testBit_two_pow_sub_one, Nat.testBit_two_pow]
  by_cases h : 27 = i
  · subst h; simp
  · simp [h]

/-- Loop body of `pydfu.write_memory`, with an explicit fuel bound (the
Python loop runs as long as `xfer_bytes < xfer_total`; one unit of fuel per
iteration suffices whenever `wTransferSize ≥ 1`, and exhausted fuel — `none`
— models the divergence a zero transfer size would cause).  Each iteration
optionally reports progress (every second chunk), sets the write address,
and downloads `buf[xfer_bytes : xfer_bytes + chunk]` with
`chunk = min(wTransferSize, xfer_total - xfer_bytes)`. -/
def writeMemoryGo (w base : Nat) (buf : List Nat) (pb : Bool) (paddr psize : Nat) :
    Nat → Nat → Nat → Option (List DfuAction)
  | fuel, bytesDone, count =>
    if bytesDone < buf.length then
      match fuel with
      | 0 => none
      | f + 1 =>
        let chunk := min w (buf.length - bytesDone)
        let pre := if pb ∧ count % 2 = 0
          then [DfuAction.progress paddr (base + bytesDone - paddr) psize] else []
        match writeMemoryGo w base buf pb paddr psize f (bytesDone + chunk) (count + 1) with
        | none => none
        | some t =>
          some (pre ++ DfuAction.setAddress (base + bytesDone)
            :: DfuAction.dnload ((buf.drop bytesDone).take chunk) :: t)
    else some []

/-- `pydfu.write_memory addr buf` (progress callback present iff `pb`,
reporting against `(progress_addr, progress_size)`). -/
def write_memory (w addr : Nat) (buf : List Nat) (pb : Bool) (paddr psize : Nat) :
    Option (List DfuAction) :=
  writeMemoryGo w addr buf pb paddr psize buf.length 0 0

/-- One element's `while size > 0` loop inside `pydfu.write_elements`:
unless mass erase was used, the first memory segment containing `addr` is
found, the write is clamped to the containing page, and that page is erased
before `write_memory` writes the chunk; fuel decreases once per iteration
(each iteration writes at least one byte whenever a segment is found since
`page_addr ≤ addr < page_addr + page_size`, and otherwise writes everything
at once). -/
def writeElemLoop (massErase : Bool) (layout : List MemSegment) (w : Nat) (pb : Bool)
    (elemAddr elemSize : Nat) : Nat → Nat → Nat → List Nat → Option (List DfuAction)
  | fuel, addr, size, data =>
    if 0 < size then
      match fuel with
      | 0 => none
      | f + 1 =>
        let seg? := if massErase then none
          else layout.find? (fun seg =>
            decide (seg.addr ≤ addr) && decide (addr ≤ seg.last_addr))
        let wsize := match seg? with
          | none => size
          | some seg =>
            let pa := pageAlign addr seg.page_size
            if pa + seg.page_size < addr + size then pa + seg.page_size - addr else size
        let eraseActs := match seg? with
          | none => []
          | some seg => [DfuAction.pageErase (pageAlign addr seg.page_size)]
        match write_memory w addr (data.take wsize) pb elemAddr elemSize with
        | none => none
        | some wmActs =>
          let post := if pb
            then [DfuAction.progress elemAddr (addr + wsize - elemAddr) elemSize] else []
          match writeElemLoop massErase layout w pb elemAddr elemSize
              f (addr + wsize) (size - wsize) (data.drop wsize) with
          | none => none
          | some t => some (eraseActs ++ wmActs ++ post ++ t)
    else some []

/-- `pydfu.write_elements` over the parsed elements, with the memory layout
and the device's `wTransferSize` as parameters (the Python code reads them
from the USB device). -/
def write_elements (elements : List DfuElement) (massErase : Bool)
    (layout : List MemSegment) (w : Nat) (pb : Bool) : Option (List DfuAction) :=
  match elements with
  | [] => some []
  | e :: es =>
    let pre := if pb ∧ e.size ≠ 0 then [DfuAction.progress e.addr 0 e.size] else []
    match writeElemLoop massErase layout w pb e.addr e.size e.size e.addr e.size e.data with
    | none => none
    | some t =>
      match write_elements es massErase layout w pb with
      | none => none
      | some t2 => some (pre ++ t ++ t2)

/-- Chunk structure of a `write_memory` trace from address `base` over the
remaining bytes `rem`: possibly a progress report, then `SET_ADDRESS` of the
chunk's start address immediately before the `DNLOAD` of the next
`min w |rem|` bytes, repeated until the buffer is exhausted. -/
inductive WMChunks (w : Nat) (paddr psize : Nat) : Nat → List Nat → List DfuAction → Prop
  | done (base : Nat) : WMChunks w paddr psize base [] []
  | step (base : Nat) (rem : List Nat) (t pre : List DfuAction)
      (hrem : rem ≠ [])
      (hpre : ∀ a ∈ pre, ∃ x y z, a = DfuAction.progress x y z)
      (hnext : WMChunks w paddr psize (base + min w rem.length)
        (rem.drop (min w rem.length)) t) :
      WMChunks w paddr psize base rem
        (pre ++ DfuAction.setAddress base
          :: DfuAction.dnload (rem.take (min w rem.length)) :: t)

lemma writeMemoryGo_spec (w base : Nat) (buf : List Nat) (pb : Bool) (paddr psize : Nat)
    (hw : 1 ≤ w) :
    ∀ fuel bytesDone count, buf.length - bytesDone ≤ fuel →
      ∃ t, writeMemoryGo w base buf pb paddr psize fuel bytesDone count = some t ∧
        WMChunks w paddr psize (base + bytesDone) (buf.drop bytesDone) t := by
  intro fuel
  induction fuel with
  | zero =>
    intro bytesDone count hfuel
    have hall : buf.length ≤ bytesDone := by omega
    refine ⟨[], ?_, ?_⟩
    · rw [writeMemoryGo, if_neg (by omega)]
    · rw [List.drop_eq_nil_of_le hall]
      exact WMChunks.done _
  | succ f ih =>
    intro bytesDone count hfuel
    by_cases hlt : bytesDone < buf.length
    · obtain ⟨t, ht, hchunks⟩ := ih (bytesDone + min w (buf.length - bytesDone)) (count + 1)
        (by omega)
      refine ⟨(if pb ∧ count % 2 = 0
          then [DfuAction.progress paddr (base + bytesDone - paddr) psize] else []) ++
          DfuAction.setAddress (base + bytesDone)
            :: DfuAction.dnload ((buf.drop bytesDone).take (min w (buf.length - bytesDone)))
            :: t, ?_, ?_⟩
      · rw [writeMemoryGo, if_pos hlt]
        simp only []
        rw [ht]
      · have hrem : (buf.drop bytesDone) ≠ [] := by
          simp only [ne_eq, List.drop_eq_nil_iff]
          omega
        have hminEq : min w ((buf.drop bytesDone).length) = min w (buf.length - bytesDone) := by
          simp
        have htake : (buf.drop bytesDone).take (min w ((buf.drop bytesDone).length)) =
            (buf.drop bytesDone).take (min w (buf.length - bytesDone)) := by
          rw [hminEq]
        have hdrop : (buf.drop bytesDone).drop (min w ((buf.drop bytesDone).length)) =
            buf.drop (bytesDone + min w (buf.length - bytesDone)) := by
          rw [hminEq, List.drop_drop]
        have hstep := @WMChunks.step w paddr psize
          (base + bytesDone) (buf.drop bytesDone) t
          (if pb ∧ count % 2 = 0
            then [DfuAction.progress paddr (base + bytesDone - paddr) psize] else [])
          hrem
          (by
            intro a ha
            split at ha
            · simp only [List.mem_singleton] at ha
              exact ⟨_, _, _, ha⟩
            · simp at ha)
          (by
            rw [hminEq, List.drop_drop,
              show base + bytesDone + min w (buf.length - bytesDone) =
                base + (bytesDone + min w (buf.length - bytesDone)) by omega]
            exact hchunks)
        rw [htake] at hstep
        exact hstep
    · refine ⟨[], ?_, ?_⟩
      · rw [writeMemoryGo, if_neg hlt]
      · rw [List.drop_eq_nil_of_le (by omega)]
        exact WMChunks.done _

lemma write_memory_spec (w addr : Nat) (buf : List Nat) (pb : Bool) (paddr psize : Nat)
    (hw : 1 ≤ w) :
    ∃ t, write_memory w addr buf pb paddr psize = some t ∧
      WMChunks w paddr psize addr buf t := by
  obtain ⟨t, ht, hchunks⟩ :=
    writeMemoryGo_spec w addr buf pb paddr psize hw buf.length 0 0 (by omega)
  refine ⟨t, ht, ?_⟩
  simpa using hchunks

lemma WMChunks_no_pageErase {w paddr psize base rem t}
    (h : WMChunks w paddr psize base rem t) :
    ∀ a ∈ t, ∀ x, a ≠ DfuAction.pageErase x := by
  induction h with
  | done => intro a ha; simp at ha
  | step base rem t pre hrem hpre hnext ih =>
    intro a ha x
    rw [List.mem_append, List.mem_cons, List.mem_cons] at ha
    rcases ha with ha | ha | ha | ha
    · obtain ⟨u, v, z, hp⟩ := hpre a ha
      simp [hp]
    · simp [ha]
    · simp [ha]
    · exact ih a ha x

lemma WMChunks_dnload_le {w paddr psize base rem t}
    (h : WMChunks w paddr psize base rem t) :
    ∀ d, DfuAction.dnload d ∈ t → d.length ≤ w := by
  induction h with
  | done => intro d hd; simp at hd
  | step base rem t pre hrem hpre hnext ih =>
    intro d hd
    rw [List.mem_append, List.mem_cons, List.mem_cons] at hd
    rcases hd with hd | hd | hd | hd
    · obtain ⟨u, v, z, hp⟩ := hpre _ hd
      simp at hp
    · simp at hd
    · have hdq : d = rem.take (min w rem.length) := by
        simpa using hd
      rw [hdq]
      simp only [List.length_take]
      omega
    · exact ih d hd

lemma writeElemLoop_small (w : Nat) (pb : Bool) (seg : MemSegment) (n : Nat) (data : List Nat)
    (hw : 1 ≤ w) (hdata : data.length = n + 1) (hn : n + 1 ≤ 16384)
    (hs1 : seg.addr ≤ 0x08000000) (hs2 : 0x08000000 ≤ seg.last_addr)
    (hps : seg.page_size = 16384) :
    ∃ t_wm, write_memory w 0x08000000 data pb 0x08000000 (n + 1) = some t_wm ∧
      WMChunks w 0x08000000 (n + 1) 0x08000000 data t_wm ∧
      writeElemLoop false [seg] w pb 0x08000000 (n + 1) (n + 1) 0x08000000 (n + 1) data =
        some (DfuAction.pageErase 0x08000000 :: (t_wm ++
          (if pb then [DfuAction.progress 0x08000000 (n + 1) (n + 1)] else []))) := by
  obtain ⟨t_wm, hwm, hch⟩ := write_memory_spec w 0x08000000 data pb 0x08000000 (n + 1) hw
  refine ⟨t_wm, hwm, hch, ?_⟩
  have hfind : ([seg].find? (fun s =>
      decide (s.addr ≤ 0x08000000) && decide ((0x08000000 : Nat) ≤ s.last_addr))) = some seg :=
    List.find?_cons_of_pos _ (by simp [hs1, hs2])
  rw [writeElemLoop, if_pos (by omega : (0 : Nat) < n + 1)]
  simp only [hfind, hps, pageAlign_16K, Bool.false_eq_true, if_false]
  rw [if_neg (by omega : ¬(0x08000000 + 16384 < 0x08000000 + (n + 1)))]
  rw [show data.take (n + 1) = data from by rw [← hdata]; exact List.take_length data]
  rw [hwm]
  rw [show n + 1 - (n + 1) = 0 from by omega]
  rw [writeElemLoop.eq_def]
  simp

/- ----- claim theorems about the single-element DFU write ----- -/

/-- C5: writing a single 1024-byte element at `0x08000000` with mass erase
disabled and a memory layout whose segment of 16K pages covers that address
erases exactly one page — the page-aligned address `0x08000000` — before any
write; the data is downloaded in chunks of at most `wTransferSize`, each
chunk's `DNLOAD` immediately preceded by a `SET_ADDRESS` of that chunk's
start address (the `WMChunks` shape), and the write trace contains no other
page erase. -/
theorem C5_single_element_write (w : Nat) (data : List Nat) (seg : MemSegment) (pb : Bool)
    (hw : 1 ≤ w) (hdata : data.length = 1024)
    (hs1 : seg.addr ≤ 0x08000000) (hs2 : 0x08000000 ≤ seg.last_addr)
    (hps : seg.page_size = 16384) :
    ∃ t_wm,
      write_memory w 0x08000000 data pb 0x08000000 1024 = some t_wm ∧
      write_elements [⟨0x08000000, 1024, data⟩] false [seg] w pb =
        some ((if pb then [DfuAction.progress 0x08000000 0 1024] else []) ++
          DfuAction.pageErase 0x08000000 :: (t_wm ++
            (if pb then [DfuAction.progress 0x08000000 1024 1024] else []))) ∧
      WMChunks w 0x08000000 1024 0x08000000 data t_wm ∧
      (∀ a ∈ t_wm, ∀ x, a ≠ DfuAction.pageErase x) ∧
      (∀ d, DfuAction.dnload d ∈ t_wm → d.length ≤ w) := by
  obtain ⟨t_wm, hwm, hch, hloop⟩ :=
    writeElemLoop_small w pb seg 1023 data hw (by omega) (by omega) hs1 hs2 hps
  rw [show (1023 + 1 : Nat) = 1024 from rfl] at hwm hch hloop
  refine ⟨t_wm, hwm, ?_, hch, WMChunks_no_pageErase hch, WMChunks_dnload_le hch⟩
  rw [write_elements]
  simp only [hloop, write_elements, List.append_nil, ne_eq, OfNat.ofNat_ne_zero,
    not_false_eq_true, and_true]

/-- C5 (witness): the scenario instantiated with a 2048-byte transfer size,
the all-zero 1024-byte element, and an 8-page 16K segment starting at the
element's address. -/
theorem C5_witness :
    (1 ≤ 2048 ∧ (List.replicate 1024 (0 : Nat)).length = 1024 ∧
      (⟨0x08000000, 0x0801FFFF, 131072, 8, 16384⟩ : MemSegment).page_size = 16384) ∧
    ∃ t_wm,
      write_memory 2048 0x08000000 (List.replicate 1024 0) false 0x08000000 1024 = some t_wm ∧
      write_elements [⟨0x08000000, 1024, List.replicate 1024 0⟩] false
          [⟨0x08000000, 0x0801FFFF, 131072, 8, 16384⟩] 2048 false =
        some ((if false then [DfuAction.progress 0x08000000 0 1024] else []) ++
          DfuAction.pageErase 0x08000000 :: (t_wm ++
            (if false then [DfuAction.progress 0x08000000 1024 1024] else []))) ∧
      WMChunks 2048 0x08000000 1024 0x08000000 (List.replicate 1024 0) t_wm ∧
      (∀ a ∈ t_wm, ∀ x, a ≠ DfuAction.pageErase x) ∧
      (∀ d, DfuAction.dnload d ∈ t_wm → d.length ≤ 2048) :=
  ⟨⟨by norm_num, by rw [List.length_replicate], rfl⟩,
    C5_single_element_write 2048 (List.replicate 1024 0)
      ⟨0x08000000, 0x0801FFFF, 131072, 8, 16384⟩ false
      (by norm_num) (by rw [List.length_replicate]) (by norm_num) (by norm_num) rfl⟩
